import Mathlib

/-!
Length-prefixed message framing (`packet.go`).

A shallow embedding of `msgPacket.Read` and `msgPacket.Pack` together with the
parts of the Go standard library they call (`io.ReadFull`,
`encoding/binary`, `make`, `copy`, slicing), followed by theorems about them.

Conventions of the embedding:

* a Go `byte` is a `Fin 256`; `uint16`/`uint32` values are natural numbers
  reduced modulo `2^16`/`2^32` at every conversion the source performs;
* Go `int` is `Int` (the conversions `uint32(int)` wrap modulo `2^32`);
* a run-time panic (index or slice bounds out of range) is `Except.error`;
* a Go result pair `([]byte, error)` is `Option Bytes × Option Err`, with
  `none` standing for `nil`;
* an `io.Reader` is a finite sequence of bytes followed by a terminal error
  that the reader reports once the bytes are exhausted (`io.EOF` for a stream
  that simply ends).
-/

namespace Packet

deriving instance DecidableEq for Except

/-- Go `byte`. -/
abbrev Byte := Fin 256

/-- Go `[]byte` contents. -/
abbrev Bytes := List Byte

/-- Go conversion `byte(v)`: the low eight bits of `v`. -/
def toByte (v : Nat) : Byte := ⟨v % 256, Nat.mod_lt _ (by decide)⟩

/-- Go conversion `uint16(v)` of an unsigned value. -/
def uint16 (v : Nat) : Nat := v % 65536

/-- Go conversion `uint32(v)` of an `int`: two's complement wrap modulo `2^32`. -/
def uint32 (v : Int) : Nat := (v % 4294967296).toNat

/-- Go error values that can leave `Read` and `Pack`. -/
inductive Err where
  /-- The value `io.EOF`. -/
  | EOF
  /-- The value `io.ErrUnexpectedEOF`. -/
  | ErrUnexpectedEOF
  /-- The value `errors.New(msg)`. -/
  | new (msg : String)
  /-- Any other error reported by the underlying reader. -/
  | stream (code : Nat)
deriving DecidableEq, Repr

/-- Run-time panics of the Go code. -/
inductive Panic where
  /-- The panic "slice bounds out of range". -/
  | sliceBounds
  /-- The panic "index out of range". -/
  | indexRange
deriving DecidableEq, Repr

/-- An `io.Reader`: the bytes it still delivers and the error it reports once
they are exhausted. -/
structure Reader where
  data : Bytes
  endErr : Err
deriving DecidableEq, Repr

/-- The configuration struct `msgPacket`. -/
structure msgPacket where
  lenMsgLen : Int
  minMsgLen : Nat
  maxMsgLen : Nat
  littleEndian : Bool
deriving DecidableEq, Repr

/-- The fields `minMsgLen` and `maxMsgLen` are `uint32`, `lenMsgLen` is a
64-bit `int`. -/
def msgPacket.WF (p : msgPacket) : Prop :=
  p.minMsgLen < 4294967296 ∧ p.maxMsgLen < 4294967296 ∧
    -9223372036854775808 ≤ p.lenMsgLen ∧ p.lenMsgLen < 9223372036854775808

instance (p : msgPacket) : Decidable p.WF := by
  unfold msgPacket.WF; exact inferInstance

/-- Go `io.ReadFull(r, buf)` with `len(buf) = n`: delivers exactly `n` bytes, or
fails with `io.EOF` when the reader ended before any byte arrived, with
`io.ErrUnexpectedEOF` when it ended after some but not all bytes, and with the
reader's own error otherwise. A request for zero bytes succeeds without
reading. Returns the outcome and the reader state afterwards. -/
def ReadFull (r : Reader) (n : Nat) : Except Err Bytes × Reader :=
  if n ≤ r.data.length then
    (.ok (r.data.take n), { r with data := r.data.drop n })
  else
    (.error (if 0 < r.data.length ∧ r.endErr = Err.EOF then Err.ErrUnexpectedEOF
             else r.endErr),
     { r with data := [] })

/-- Go `make([]byte, n)`: `n` zero bytes. -/
def make (n : Nat) : Bytes := List.replicate n (0 : Byte)

/-- Go `copy(dst, src)`: overwrites the first `min(len(dst), len(src))` bytes of
`dst`; returns the new contents of `dst`. -/
def copy (dst src : Bytes) : Bytes := src.take dst.length ++ dst.drop src.length

/-- Go `binary.BigEndian.Uint16(b)`:
`_ = b[1]; uint16(b[1]) | uint16(b[0])<<8`. -/
def BigEndian.Uint16 (b : Bytes) : Except Panic Nat :=
  match b with
  | b0 :: b1 :: _ => .ok (b1.val ||| b0.val <<< 8)
  | _ => .error .indexRange

/-- Go `binary.LittleEndian.Uint16(b)`:
`_ = b[1]; uint16(b[0]) | uint16(b[1])<<8`. -/
def LittleEndian.Uint16 (b : Bytes) : Except Panic Nat :=
  match b with
  | b0 :: b1 :: _ => .ok (b0.val ||| b1.val <<< 8)
  | _ => .error .indexRange

/-- Go `binary.BigEndian.Uint32(b)`:
`_ = b[3]; uint32(b[3]) | uint32(b[2])<<8 | uint32(b[1])<<16 | uint32(b[0])<<24`. -/
def BigEndian.Uint32 (b : Bytes) : Except Panic Nat :=
  match b with
  | b0 :: b1 :: b2 :: b3 :: _ =>
      .ok (b3.val ||| b2.val <<< 8 ||| b1.val <<< 16 ||| b0.val <<< 24)
  | _ => .error .indexRange

/-- Go `binary.LittleEndian.Uint32(b)`:
`_ = b[3]; uint32(b[0]) | uint32(b[1])<<8 | uint32(b[2])<<16 | uint32(b[3])<<24`. -/
def LittleEndian.Uint32 (b : Bytes) : Except Panic Nat :=
  match b with
  | b0 :: b1 :: b2 :: b3 :: _ =>
      .ok (b0.val ||| b1.val <<< 8 ||| b2.val <<< 16 ||| b3.val <<< 24)
  | _ => .error .indexRange

/-- Go `binary.BigEndian.PutUint16(b, v)`:
`_ = b[1]; b[0] = byte(v >> 8); b[1] = byte(v)`. -/
def BigEndian.PutUint16 (b : Bytes) (v : Nat) : Except Panic Bytes :=
  if b.length < 2 then .error .indexRange
  else .ok ((b.set 0 (toByte (v >>> 8))).set 1 (toByte v))

/-- Go `binary.LittleEndian.PutUint16(b, v)`:
`_ = b[1]; b[0] = byte(v); b[1] = byte(v >> 8)`. -/
def LittleEndian.PutUint16 (b : Bytes) (v : Nat) : Except Panic Bytes :=
  if b.length < 2 then .error .indexRange
  else .ok ((b.set 0 (toByte v)).set 1 (toByte (v >>> 8)))

/-- Go `binary.BigEndian.PutUint32(b, v)`: `_ = b[3]; b[0] = byte(v >> 24);
b[1] = byte(v >> 16); b[2] = byte(v >> 8); b[3] = byte(v)`. -/
def BigEndian.PutUint32 (b : Bytes) (v : Nat) : Except Panic Bytes :=
  if b.length < 4 then .error .indexRange
  else .ok ((((b.set 0 (toByte (v >>> 24))).set 1 (toByte (v >>> 16))).set 2
    (toByte (v >>> 8))).set 3 (toByte v))

/-- Go `binary.LittleEndian.PutUint32(b, v)`: `_ = b[3]; b[0] = byte(v);
b[1] = byte(v >> 8); b[2] = byte(v >> 16); b[3] = byte(v >> 24)`. -/
def LittleEndian.PutUint32 (b : Bytes) (v : Nat) : Except Panic Bytes :=
  if b.length < 4 then .error .indexRange
  else .ok ((((b.set 0 (toByte v)).set 1 (toByte (v >>> 8))).set 2
    (toByte (v >>> 16))).set 3 (toByte (v >>> 24)))

/-- The `switch p.lenMsgLen` of `Read` (lines 67-83): the value of `msgLen`
decoded from the length field `bufMsgLen`. No case matches a width other than
1, 2 or 4, and `msgLen` keeps its zero value. -/
def msgPacket.decodeLen (p : msgPacket) (bufMsgLen : Bytes) : Except Panic Nat :=
  if p.lenMsgLen = 1 then
    match bufMsgLen with
    | b0 :: _ => .ok b0.val
    | [] => .error .indexRange
  else if p.lenMsgLen = 2 then
    if p.littleEndian then LittleEndian.Uint16 bufMsgLen
    else BigEndian.Uint16 bufMsgLen
  else if p.lenMsgLen = 4 then
    if p.littleEndian then LittleEndian.Uint32 bufMsgLen
    else BigEndian.Uint32 bufMsgLen
  else .ok 0

/-- The method `msgPacket.Read`. The result is the returned pair together with
the reader state left behind, or a panic. -/
def msgPacket.Read (p : msgPacket) (reader : Reader) :
    Except Panic (Option Bytes × Option Err × Reader) :=
  -- bufMsgLen := b[:p.lenMsgLen] with b a [4]byte
  if p.lenMsgLen < 0 ∨ 4 < p.lenMsgLen then .error .sliceBounds
  else
    match ReadFull reader p.lenMsgLen.toNat with
    | (.error err, reader1) => .ok (none, some err, reader1)
    | (.ok bufMsgLen, reader1) =>
      match p.decodeLen bufMsgLen with
      | .error e => .error e
      | .ok msgLen =>
        if msgLen > p.maxMsgLen then
          .ok (none, some (Err.new "msg too long"), reader1)
        else if msgLen < p.minMsgLen then
          .ok (none, some (Err.new "msg too short"), reader1)
        else
          -- msgData := make([]byte, msgLen); io.ReadFull(reader, msgData)
          match ReadFull reader1 msgLen with
          | (.error err, reader2) => .ok (none, some err, reader2)
          | (.ok msgData, reader2) => .ok (some msgData, none, reader2)

/-- The `switch p.lenMsgLen` of `Pack` (lines 117-133): writes `msgLen` into the
head of `msg`. -/
def msgPacket.encodeLen (p : msgPacket) (msg : Bytes) (msgLen : Nat) :
    Except Panic Bytes :=
  if p.lenMsgLen = 1 then
    if msg.length < 1 then .error .indexRange
    else .ok (msg.set 0 (toByte msgLen))
  else if p.lenMsgLen = 2 then
    if p.littleEndian then LittleEndian.PutUint16 msg (uint16 msgLen)
    else BigEndian.PutUint16 msg (uint16 msgLen)
  else if p.lenMsgLen = 4 then
    if p.littleEndian then LittleEndian.PutUint32 msg msgLen
    else BigEndian.PutUint32 msg msgLen
  else .ok msg

/-- The method `msgPacket.Pack`: the returned pair, or a panic. -/
def msgPacket.Pack (p : msgPacket) (args : Bytes) :
    Except Panic (Option Bytes × Option Err) :=
  let msgLen := uint32 (args.length : Int)
  if msgLen > p.maxMsgLen then .ok (none, some (Err.new "msg too long"))
  else if msgLen < p.minMsgLen then .ok (none, some (Err.new "msg too short"))
  else
    -- msg := make([]byte, uint32(p.lenMsgLen)+msgLen), a uint32 sum
    let msg := make ((uint32 p.lenMsgLen + msgLen) % 4294967296)
    match p.encodeLen msg msgLen with
    | .error e => .error e
    | .ok msg1 =>
      -- l := p.lenMsgLen; copy(msg[l:], args)
      if p.lenMsgLen < 0 ∨ (msg1.length : Int) < p.lenMsgLen then .error .sliceBounds
      else
        .ok (some (msg1.take p.lenMsgLen.toNat ++ copy (msg1.drop p.lenMsgLen.toNat) args),
             none)

/-- The configuration `NewPacket()` builds before any option is applied. -/
def defaultPacket : msgPacket :=
  { lenMsgLen := 4, minMsgLen := 1, maxMsgLen := 4096, littleEndian := false }

/-- A stream that holds exactly the bytes `bs` and then ends. -/
def streamOf (bs : Bytes) : Reader := { data := bs, endErr := Err.EOF }

/-- The `w`-byte little-endian representation of `n`: the `w` low-order
base-256 digits of `n`, least significant first. -/
def leBytes : Nat → Nat → Bytes
  | 0, _ => []
  | w + 1, n => toByte n :: leBytes w (n / 256)

/-- The `w`-byte big-endian representation of `n`: the `w` low-order base-256
digits of `n`, most significant first. -/
def beBytes (w n : Nat) : Bytes := (leBytes w n).reverse

/-- The number a byte sequence denotes when read least significant byte
first. -/
def leValue : Bytes → Nat
  | [] => 0
  | b :: bs => b.val + 256 * leValue bs

/-- The number a byte sequence denotes when read most significant byte first. -/
def beValue (bs : Bytes) : Nat := leValue bs.reverse

/-- The `w`-byte unsigned encoding of `n` in the byte order of `p`. -/
def msgPacket.lenBytes (p : msgPacket) (w n : Nat) : Bytes :=
  if p.littleEndian then leBytes w n else beBytes w n

/-- The unsigned number a length field denotes in the byte order of `p`. -/
def msgPacket.lenValue (p : msgPacket) (bs : Bytes) : Nat :=
  if p.littleEndian then leValue bs else beValue bs

/-- The default configuration with a one-byte length field
(`NewPacket(WithLenMsgLen(1))`). -/
def packetW1 : msgPacket :=
  { lenMsgLen := 1, minMsgLen := 1, maxMsgLen := 4096, littleEndian := false }

/-- A configuration whose bounds are inverted
(`NewPacket(WithMinMsgLen(10), WithMaxMsgLen(2))`). -/
def packetInverted : msgPacket :=
  { lenMsgLen := 4, minMsgLen := 10, maxMsgLen := 2, littleEndian := false }

/-- The default configuration with the largest `uint32` as upper bound
(`NewPacket(WithMaxMsgLen(4294967295))`). -/
def packetMaxU32 : msgPacket :=
  { lenMsgLen := 4, minMsgLen := 1, maxMsgLen := 4294967295, littleEndian := false }

/-- The default configuration with a two-byte big-endian length field
(`NewPacket(WithLenMsgLen(2))`). -/
def packetW2BE : msgPacket :=
  { lenMsgLen := 2, minMsgLen := 1, maxMsgLen := 4096, littleEndian := false }

/-- The default configuration with a two-byte little-endian length field
(`NewPacket(WithLenMsgLen(2), WithByteOrder(true))`). -/
def packetW2LE : msgPacket :=
  { lenMsgLen := 2, minMsgLen := 1, maxMsgLen := 4096, littleEndian := true }

/-- A two-byte big-endian length field with an upper bound of `2^16`
(`NewPacket(WithLenMsgLen(2), WithMaxMsgLen(65536))`). -/
def packetW2Wide : msgPacket :=
  { lenMsgLen := 2, minMsgLen := 1, maxMsgLen := 65536, littleEndian := false }

/-- A body of `n` zero bytes. -/
def zeros (n : Nat) : Bytes := List.replicate n (0 : Byte)

/-- The type `Opt`: a function that updates the configuration it is given. -/
abbrev Opt := msgPacket → msgPacket

/-- The constructor `NewPacket`: the default configuration, then every option
applied in the order given (`for _, op := range ops { op(mp) }`). -/
def NewPacket (ops : List Opt) : msgPacket :=
  ops.foldl (fun mp op => op mp)
    { lenMsgLen := 4, minMsgLen := 1, maxMsgLen := 4096, littleEndian := false }

/-- The option `WithByteOrder`. -/
def WithByteOrder (littleEndian : Bool) : Opt :=
  fun p => { p with littleEndian := littleEndian }

/-- The option `WithLenMsgLen`. -/
def WithLenMsgLen (lenMsgLen : Int) : Opt :=
  fun p => { p with lenMsgLen := lenMsgLen }

/-- The option `WithMinMsgLen` (its argument is a `uint32`). -/
def WithMinMsgLen (minMsgLen : Nat) : Opt :=
  fun p => { p with minMsgLen := minMsgLen }

/-- The option `WithMaxMsgLen` (its argument is a `uint32`). -/
def WithMaxMsgLen (maxMsgLen : Nat) : Opt :=
  fun p => { p with maxMsgLen := maxMsgLen }

/-- A call of one of the four option constructors, as written by a caller. -/
inductive OptCall where
  | byteOrder (littleEndian : Bool)
  | lenMsgLen (n : Int)
  | minMsgLen (n : Nat)
  | maxMsgLen (n : Nat)
deriving DecidableEq, Repr

/-- The option a call denotes. -/
def OptCall.toOpt : OptCall → Opt
  | .byteOrder b => WithByteOrder b
  | .lenMsgLen n => WithLenMsgLen n
  | .minMsgLen n => WithMinMsgLen n
  | .maxMsgLen n => WithMaxMsgLen n

/-- The byte order given by the last call in the list that targets the byte
order, if there is one (specification side). -/
def lastByteOrder : List OptCall → Option Bool
  | [] => none
  | c :: cs =>
    match lastByteOrder cs with
    | some b => some b
    | none => match c with
      | .byteOrder b => some b
      | _ => none

/-- The width given by the last call in the list that targets the width of the
length field, if there is one (specification side). -/
def lastLenMsgLen : List OptCall → Option Int
  | [] => none
  | c :: cs =>
    match lastLenMsgLen cs with
    | some n => some n
    | none => match c with
      | .lenMsgLen n => some n
      | _ => none

/-- The lower bound given by the last call in the list that targets the lower
bound, if there is one (specification side). -/
def lastMinMsgLen : List OptCall → Option Nat
  | [] => none
  | c :: cs =>
    match lastMinMsgLen cs with
    | some n => some n
    | none => match c with
      | .minMsgLen n => some n
      | _ => none

/-- The upper bound given by the last call in the list that targets the upper
bound, if there is one (specification side). -/
def lastMaxMsgLen : List OptCall → Option Nat
  | [] => none
  | c :: cs =>
    match lastMaxMsgLen cs with
    | some n => some n
    | none => match c with
      | .maxMsgLen n => some n
      | _ => none

/-- A one-byte length field with the largest `uint32` as upper bound
(`NewPacket(WithLenMsgLen(1), WithMaxMsgLen(4294967295))`). -/
def packetW1MaxU32 : msgPacket :=
  { lenMsgLen := 1, minMsgLen := 1, maxMsgLen := 4294967295, littleEndian := false }

/-! ## Arithmetic of the conversions -/

theorem uint32_natCast (n : Nat) : uint32 (n : Int) = n % 4294967296 := by
  unfold uint32
  omega

theorem uint32_of_small (v : Int) (h0 : 0 ≤ v) (h1 : v < 4294967296) :
    uint32 v = v.toNat := by
  unfold uint32
  omega

@[simp] theorem toByte_val (v : Nat) : (toByte v).val = v % 256 := rfl

theorem toByte_of_val (b : Byte) : toByte b.val = b := by
  apply Fin.ext
  simp [toByte_val, Nat.mod_eq_of_lt b.isLt]

theorem or_shiftLeft_eq_add (i lo hi : Nat) (h : lo < 2 ^ i) :
    lo ||| hi <<< i = lo + hi * 2 ^ i := by
  rw [Nat.shiftLeft_eq, Nat.or_comm, Nat.mul_comm hi, ← Nat.mul_add_lt_is_or h]
  omega

theorem Uint16_arith (lo hi : Byte) : lo.val ||| hi.val <<< 8 = lo.val + hi.val * 256 := by
  have h := or_shiftLeft_eq_add 8 lo.val hi.val (by have := lo.isLt; omega)
  simpa using h

theorem Uint32_arith (a b c d : Byte) :
    a.val ||| b.val <<< 8 ||| c.val <<< 16 ||| d.val <<< 24 =
      a.val + b.val * 256 + c.val * 65536 + d.val * 16777216 := by
  have ha := a.isLt
  have hb := b.isLt
  have hc := c.isLt
  have h1 := or_shiftLeft_eq_add 8 a.val b.val (by omega)
  have h2 := or_shiftLeft_eq_add 16 (a.val + b.val * 256) c.val (by omega)
  have h3 := or_shiftLeft_eq_add 24 (a.val + b.val * 256 + c.val * 65536) d.val (by omega)
  simp only [Nat.reducePow] at h1 h2 h3
  rw [h1, h2, h3]

theorem zeros_length (n : Nat) : (zeros n).length = n := List.length_replicate n 0

/-! ## Closed form of `Pack` -/

theorem copy_make (m : Nat) (b : Bytes) (h : m ≤ b.length) :
    copy (make m) b = b.take m := by
  have h0 : m - b.length = 0 := by omega
  unfold copy make
  rw [List.length_replicate, List.drop_replicate, h0, List.replicate_zero, List.append_nil]

theorem make_one_add (m : Nat) : make (1 + m) = 0 :: make m := by
  rw [Nat.add_comm]
  rfl

theorem make_two_add (m : Nat) : make (2 + m) = 0 :: 0 :: make m := by
  rw [Nat.add_comm]
  rfl

theorem make_four_add (m : Nat) : make (4 + m) = 0 :: 0 :: 0 :: 0 :: make m := by
  rw [Nat.add_comm]
  rfl

theorem toByte_congr (a b : Nat) (h : a % 256 = b % 256) : toByte a = toByte b := by
  apply Fin.ext
  simpa using h

theorem encodeLen_make (p : msgPacket) (w m : Nat)
    (hw : w = 1 ∨ w = 2 ∨ w = 4) (hp : p.lenMsgLen = (w : Int)) :
    p.encodeLen (make (w + m)) m = .ok (p.lenBytes w m ++ make m) := by
  rcases hw with h | h | h <;> subst h
  · simp [msgPacket.encodeLen, hp, make_one_add, msgPacket.lenBytes, leBytes, beBytes]
  · cases hle : p.littleEndian <;>
      simp [msgPacket.encodeLen, hp, hle, make_two_add, msgPacket.lenBytes, leBytes, beBytes,
        BigEndian.PutUint16, LittleEndian.PutUint16,
        Nat.shiftRight_eq_div_pow, uint16]
    all_goals
      rw [if_neg (by omega), toByte_congr (m % 65536 / 256) (m / 256) (by omega),
        toByte_congr (m % 65536) m (by omega)]
  · cases hle : p.littleEndian <;>
      simp [msgPacket.encodeLen, hp, hle, make_four_add, msgPacket.lenBytes, leBytes, beBytes,
        BigEndian.PutUint32, LittleEndian.PutUint32,
        Nat.shiftRight_eq_div_pow]
    all_goals
      rw [if_neg (by omega)]
      simp [Nat.div_div_eq_div_mul]

theorem lenBytes_length (p : msgPacket) (w n : Nat) : (p.lenBytes w n).length = w := by
  have h : ∀ w n, (leBytes w n).length = w := by
    intro w
    induction w with
    | zero => intro n; rfl
    | succ k ih => intro n; simp [leBytes, ih]
  unfold msgPacket.lenBytes beBytes
  split <;> simp [h]

/-- Closed form of `Pack` on every input it frames without wrapping the buffer
size: the length field followed by the first `msgLen` bytes of the body. -/
theorem Pack_eq (p : msgPacket) (w : Nat) (b : Bytes)
    (hw : w = 1 ∨ w = 2 ∨ w = 4) (hp : p.lenMsgLen = (w : Int))
    (hmax : b.length % 4294967296 ≤ p.maxMsgLen)
    (hmin : p.minMsgLen ≤ b.length % 4294967296)
    (hsum : w + b.length % 4294967296 < 4294967296) :
    p.Pack b = .ok (some (p.lenBytes w (b.length % 4294967296) ++
      b.take (b.length % 4294967296)), none) := by
  have hu : uint32 p.lenMsgLen = w := by
    rw [hp, uint32_natCast]
    omega
  have hle : b.length % 4294967296 ≤ b.length := Nat.mod_le _ _
  unfold msgPacket.Pack
  simp only [uint32_natCast, hu, Nat.mod_eq_of_lt hsum, encodeLen_make p w _ hw hp]
  have h1 : ¬ (b.length % 4294967296 > p.maxMsgLen) := by omega
  have h2 : ¬ (b.length % 4294967296 < p.minMsgLen) := by omega
  have h3 : ¬ (((w : Int) < 0) ∨
      (((p.lenBytes w (b.length % 4294967296) ++ make (b.length % 4294967296)).length : Nat) : Int)
        < (w : Int)) := by
    simp [lenBytes_length]
  simp only [h1, h2, if_false, hp, h3, Int.toNat_ofNat]
  have h4 : List.take w (p.lenBytes w (b.length % 4294967296) ++ make (b.length % 4294967296))
      = p.lenBytes w (b.length % 4294967296) :=
    List.take_left' (lenBytes_length p w _)
  have h5 : List.drop w (p.lenBytes w (b.length % 4294967296) ++ make (b.length % 4294967296))
      = make (b.length % 4294967296) :=
    List.drop_left' (lenBytes_length p w _)
  rw [h4, h5, copy_make _ _ hle]

theorem encodeLen_short (p : msgPacket) (w : Nat) (msg : Bytes) (v : Nat)
    (hw : w = 1 ∨ w = 2 ∨ w = 4) (hp : p.lenMsgLen = (w : Int)) (hs : msg.length < w) :
    p.encodeLen msg v = .error .indexRange := by
  rcases hw with h | h | h <;> subst h
  · simp [msgPacket.encodeLen, hp, hs]
  · cases hle : p.littleEndian <;>
      simp [msgPacket.encodeLen, hp, hle, BigEndian.PutUint16, LittleEndian.PutUint16, hs]
  · cases hle : p.littleEndian <;>
      simp [msgPacket.encodeLen, hp, hle, BigEndian.PutUint32, LittleEndian.PutUint32, hs]

/-- When the `uint32` sum `uint32(lenMsgLen) + msgLen` wraps, the buffer is
shorter than the length field and writing the field panics. -/
theorem Pack_wrap_panics (p : msgPacket) (w : Nat) (b : Bytes)
    (hw : w = 1 ∨ w = 2 ∨ w = 4) (hp : p.lenMsgLen = (w : Int))
    (hmax : b.length % 4294967296 ≤ p.maxMsgLen)
    (hmin : p.minMsgLen ≤ b.length % 4294967296)
    (hsum : 4294967296 ≤ w + b.length % 4294967296) :
    p.Pack b = .error .indexRange := by
  have hu : uint32 p.lenMsgLen = w := by
    rw [hp, uint32_natCast]
    omega
  have hlt : b.length % 4294967296 < 4294967296 := Nat.mod_lt _ (by decide)
  have hs : (make ((w + b.length % 4294967296) % 4294967296)).length < w := by
    unfold make
    rw [List.length_replicate]
    omega
  unfold msgPacket.Pack
  simp only [uint32_natCast, hu, encodeLen_short p w _ _ hw hp hs]
  rw [if_neg (by omega), if_neg (by omega)]

/-- Inversion of `Pack`: whenever it returns a buffer and no error, the wrapped
length passed both bounds checks, the buffer size did not wrap, and the buffer
is the length field followed by the first `msgLen` bytes of the body. -/
theorem Pack_inv (p : msgPacket) (w : Nat) (b out : Bytes)
    (hw : w = 1 ∨ w = 2 ∨ w = 4) (hp : p.lenMsgLen = (w : Int))
    (h : p.Pack b = .ok (some out, none)) :
    b.length % 4294967296 ≤ p.maxMsgLen ∧ p.minMsgLen ≤ b.length % 4294967296 ∧
      w + b.length % 4294967296 < 4294967296 ∧
      out = p.lenBytes w (b.length % 4294967296) ++ b.take (b.length % 4294967296) := by
  by_cases h1 : b.length % 4294967296 > p.maxMsgLen
  · simp [msgPacket.Pack, uint32_natCast, h1] at h
  by_cases h2 : b.length % 4294967296 < p.minMsgLen
  · simp [msgPacket.Pack, uint32_natCast, h1, h2] at h
  by_cases h3 : 4294967296 ≤ w + b.length % 4294967296
  · rw [Pack_wrap_panics p w b hw hp (by omega) (by omega) h3] at h
    cases h
  · rw [Pack_eq p w b hw hp (by omega) (by omega) (by omega)] at h
    simp only [Except.ok.injEq, Prod.mk.injEq, Option.some.injEq, and_true] at h
    exact ⟨by omega, by omega, by omega, h.symm⟩

theorem take_zeros (k n : Nat) (h : k ≤ n) : (zeros n).take k = zeros k := by
  unfold zeros
  rw [List.take_replicate, Nat.min_eq_left h]

/-- The default configuration frames a body of `2^32 + 5` bytes as a
five-byte message. -/
theorem Pack_default_huge :
    defaultPacket.Pack (zeros 4294967301) = .ok (some ([0, 0, 0, 5] ++ zeros 5), none) := by
  have hl : (zeros 4294967301).length % 4294967296 = 5 := by rw [zeros_length]
  have h := Pack_eq defaultPacket 4 (zeros 4294967301) (by decide) rfl
    (by rw [hl]; decide) (by rw [hl]; decide) (by rw [hl]; decide)
  rw [hl, take_zeros 5 _ (by decide)] at h
  exact h

theorem lenBytes_mod32 (p : msgPacket) (w n : Nat) (hw : w = 1 ∨ w = 2 ∨ w = 4) :
    p.lenBytes w (n % 4294967296) = p.lenBytes w n := by
  have e0 : toByte (n % 4294967296) = toByte n := toByte_congr _ _ (by omega)
  have e1 : toByte (n % 4294967296 / 256) = toByte (n / 256) := toByte_congr _ _ (by omega)
  have e2 : toByte (n % 4294967296 / 256 / 256) = toByte (n / 256 / 256) :=
    toByte_congr _ _ (by omega)
  have e3 : toByte (n % 4294967296 / 256 / 256 / 256) = toByte (n / 256 / 256 / 256) :=
    toByte_congr _ _ (by omega)
  rcases hw with h | h | h <;> subst h <;>
    simp only [msgPacket.lenBytes, beBytes, leBytes, e0, e1, e2, e3]

theorem lenBytes_mod_pow (p : msgPacket) (w n : Nat) (hw : w = 1 ∨ w = 2 ∨ w = 4) :
    p.lenBytes w (n % 256 ^ w) = p.lenBytes w n := by
  rcases hw with h | h | h <;> subst h
  · have e0 : toByte (n % 256 ^ 1) = toByte n := toByte_congr _ _ (by omega)
    simp only [msgPacket.lenBytes, beBytes, leBytes, e0]
  · have e0 : toByte (n % 256 ^ 2) = toByte n := toByte_congr _ _ (by omega)
    have e1 : toByte (n % 256 ^ 2 / 256) = toByte (n / 256) := toByte_congr _ _ (by omega)
    simp only [msgPacket.lenBytes, beBytes, leBytes, e0, e1]
  · have e0 : toByte (n % 256 ^ 4) = toByte n := toByte_congr _ _ (by omega)
    have e1 : toByte (n % 256 ^ 4 / 256) = toByte (n / 256) := toByte_congr _ _ (by omega)
    have e2 : toByte (n % 256 ^ 4 / 256 / 256) = toByte (n / 256 / 256) :=
      toByte_congr _ _ (by omega)
    have e3 : toByte (n % 256 ^ 4 / 256 / 256 / 256) = toByte (n / 256 / 256 / 256) :=
      toByte_congr _ _ (by omega)
    simp only [msgPacket.lenBytes, beBytes, leBytes, e0, e1, e2, e3]

/-- For a body shorter than `2^32` bytes, a buffer returned by `Pack` is the
length field followed by the whole body. -/
theorem Pack_body_verbatim (p : msgPacket) (w : Nat) (b out : Bytes)
    (hw : w = 1 ∨ w = 2 ∨ w = 4) (hp : p.lenMsgLen = (w : Int))
    (h : p.Pack b = .ok (some out, none)) (hlt : b.length < 4294967296) :
    out = p.lenBytes w b.length ++ b ∧ out.drop w = b ∧ out.length = w + b.length := by
  have hi := (Pack_inv p w b out hw hp h).2.2.2
  rw [Nat.mod_eq_of_lt hlt, List.take_length] at hi
  subst hi
  refine ⟨rfl, List.drop_left' (lenBytes_length p w _), ?_⟩
  rw [List.length_append, lenBytes_length]

theorem Pack_300_bigEndian :
    packetW2BE.Pack (zeros 300) = .ok (some (1 :: 44 :: zeros 300), none) := by
  have hm : (zeros 300).length % 4294967296 = (zeros 300).length := by rw [zeros_length]
  have h := Pack_eq packetW2BE 2 (zeros 300) (by decide) rfl
    (by rw [hm, zeros_length]; decide) (by rw [hm, zeros_length]; decide)
    (by rw [hm, zeros_length]; decide)
  rw [hm, List.take_length, zeros_length] at h
  exact h

theorem Pack_300_littleEndian :
    packetW2LE.Pack (zeros 300) = .ok (some (44 :: 1 :: zeros 300), none) := by
  have hm : (zeros 300).length % 4294967296 = (zeros 300).length := by rw [zeros_length]
  have h := Pack_eq packetW2LE 2 (zeros 300) (by decide) rfl
    (by rw [hm, zeros_length]; decide) (by rw [hm, zeros_length]; decide)
    (by rw [hm, zeros_length]; decide)
  rw [hm, List.take_length, zeros_length] at h
  exact h

/-! ## Closed form of `Read` -/

theorem length_eq_one {α : Type} (l : List α) (h : l.length = 1) : ∃ a, l = [a] := by
  match l, h with
  | [a], _ => exact ⟨a, rfl⟩

theorem length_eq_two {α : Type} (l : List α) (h : l.length = 2) : ∃ a b, l = [a, b] := by
  match l, h with
  | [a, b], _ => exact ⟨a, b, rfl⟩

theorem length_eq_four {α : Type} (l : List α) (h : l.length = 4) :
    ∃ a b c d, l = [a, b, c, d] := by
  match l, h with
  | [a, b, c, d], _ => exact ⟨a, b, c, d, rfl⟩

/-- The decoding switch of `Read` computes the number the length field denotes
in the configured byte order. -/
theorem decodeLen_eq (p : msgPacket) (w : Nat) (f : Bytes)
    (hw : w = 1 ∨ w = 2 ∨ w = 4) (hp : p.lenMsgLen = (w : Int)) (hf : f.length = w) :
    p.decodeLen f = .ok (p.lenValue f) := by
  rcases hw with h | h | h <;> subst h
  · obtain ⟨a, rfl⟩ := length_eq_one f hf
    simp [msgPacket.decodeLen, hp, msgPacket.lenValue, leValue, beValue]
  · obtain ⟨a, b, rfl⟩ := length_eq_two f hf
    cases hle : p.littleEndian <;>
      simp [msgPacket.decodeLen, hp, hle, msgPacket.lenValue, leValue, beValue,
        BigEndian.Uint16, LittleEndian.Uint16, Uint16_arith] <;> omega
  · obtain ⟨a, b, c, d, rfl⟩ := length_eq_four f hf
    cases hle : p.littleEndian <;>
      simp [msgPacket.decodeLen, hp, hle, msgPacket.lenValue, leValue, beValue,
        BigEndian.Uint32, LittleEndian.Uint32, Uint32_arith] <;> omega

theorem leValue_leBytes (w n : Nat) : leValue (leBytes w n) = n % 256 ^ w := by
  induction w generalizing n with
  | zero => simp [leBytes, leValue, Nat.mod_one]
  | succ k ih =>
    simp only [leBytes, leValue, ih, toByte_val]
    rw [Nat.pow_succ, Nat.mul_comm (256 ^ k) 256, Nat.mod_mul]

theorem lenValue_lenBytes (p : msgPacket) (w n : Nat) :
    p.lenValue (p.lenBytes w n) = n % 256 ^ w := by
  unfold msgPacket.lenValue msgPacket.lenBytes beValue beBytes
  split <;> simp [leValue_leBytes]

theorem ReadFull_append (f rest : Bytes) (e : Err) :
    ReadFull { data := f ++ rest, endErr := e } f.length =
      (.ok f, { data := rest, endErr := e }) := by
  simp [ReadFull]

/-- Unfolding of `Read` once the length field has arrived: the bounds checks on
the decoded value, then the body read. -/
theorem Read_of_field (p : msgPacket) (w : Nat) (r : Reader)
    (hw : w = 1 ∨ w = 2 ∨ w = 4) (hp : p.lenMsgLen = (w : Int)) (hr : w ≤ r.data.length) :
    p.Read r =
      if p.lenValue (r.data.take w) > p.maxMsgLen then
        .ok (none, some (Err.new "msg too long"), { r with data := r.data.drop w })
      else if p.lenValue (r.data.take w) < p.minMsgLen then
        .ok (none, some (Err.new "msg too short"), { r with data := r.data.drop w })
      else
        match ReadFull { r with data := r.data.drop w } (p.lenValue (r.data.take w)) with
        | (.error err, reader2) => .ok (none, some err, reader2)
        | (.ok msgData, reader2) => .ok (some msgData, none, reader2) := by
  have h0 : ¬ (p.lenMsgLen < 0 ∨ 4 < p.lenMsgLen) := by omega
  have hlen : (r.data.take w).length = w := by simp [List.length_take]; omega
  unfold msgPacket.Read
  rw [if_neg h0]
  have hrf : ReadFull r p.lenMsgLen.toNat =
      (.ok (r.data.take w), { r with data := r.data.drop w }) := by
    simp [ReadFull, hp, hr]
  rw [hrf]
  simp only [decodeLen_eq p w _ hw hp hlen]

/-- A two-byte length field denotes a number below `2^16`, in either byte
order. -/
theorem lenValue_two_lt (p : msgPacket) (f : Bytes) (hf : f.length = 2) :
    p.lenValue f < 65536 := by
  obtain ⟨a, b, rfl⟩ := length_eq_two f hf
  have ha := a.isLt
  have hb := b.isLt
  cases hle : p.littleEndian <;>
    simp [msgPacket.lenValue, hle, leValue, beValue] <;> omega

/-- Packing and reading back, with arbitrary bytes following the frame and an
arbitrary terminal reader error: the frame is the length field followed by the
body, and `Read` returns the body and leaves the rest of the stream. -/
theorem roundtrip_core (p : msgPacket) (w : Nat) (b tail : Bytes) (e : Err)
    (hw : w = 1 ∨ w = 2 ∨ w = 4) (hp : p.lenMsgLen = (w : Int))
    (hmin : p.minMsgLen ≤ b.length) (hmax : b.length ≤ p.maxMsgLen)
    (hfit : b.length < 256 ^ w) (hsum : w + b.length < 4294967296) :
    p.Pack b = .ok (some (p.lenBytes w b.length ++ b), none) ∧
      p.Read { data := (p.lenBytes w b.length ++ b) ++ tail, endErr := e } =
        .ok (some b, none, { data := tail, endErr := e }) := by
  have hm : b.length % 4294967296 = b.length := Nat.mod_eq_of_lt (by omega)
  constructor
  · have h := Pack_eq p w b hw hp (by omega) (by omega) (by omega)
    rw [hm, List.take_length] at h
    exact h
  · have hlb := lenBytes_length p w b.length
    have hr : w ≤ (({ data := (p.lenBytes w b.length ++ b) ++ tail, endErr := e } :
        Reader).data).length := by
      simp [hlb]
    rw [Read_of_field p w _ hw hp hr]
    have ht : List.take w ((p.lenBytes w b.length ++ b) ++ tail) = p.lenBytes w b.length := by
      rw [List.append_assoc]
      exact List.take_left' hlb
    have hd : List.drop w ((p.lenBytes w b.length ++ b) ++ tail) = b ++ tail := by
      rw [List.append_assoc]
      exact List.drop_left' hlb
    simp only [ht, hd, lenValue_lenBytes, Nat.mod_eq_of_lt hfit]
    rw [if_neg (by omega), if_neg (by omega), ReadFull_append]

/-! ## The claims -/

/-- C1 (as stated, refuted): with a one-byte length field and the default bounds
`[1, 4096]`, a body of 256 bytes is within the bounds and is packed without an
error, but its length field is `0x00`, so reading the packed bytes back fails
with "msg too short" instead of returning the body. -/
theorem C1_roundtrip_fails_on_narrowing :
    packetW1.minMsgLen ≤ (zeros 256).length ∧ (zeros 256).length ≤ packetW1.maxMsgLen ∧
      packetW1.Pack (zeros 256) = .ok (some (0 :: zeros 256), none) ∧
      packetW1.Read (streamOf (0 :: zeros 256)) =
        .ok (none, some (Err.new "msg too short"), streamOf (zeros 256)) := by
  have hl : (zeros 256).length = 256 := zeros_length 256
  have hm : (zeros 256).length % 4294967296 = (zeros 256).length := by rw [hl]
  refine ⟨?_, ?_, ?_, ?_⟩
  · rw [hl]; decide
  · rw [hl]; decide
  · have h := Pack_eq packetW1 1 (zeros 256) (Or.inl rfl) rfl (by rw [hm, hl]; decide)
      (by rw [hm, hl]; decide) (by rw [hm, hl]; decide)
    rw [hm, List.take_length, hl] at h
    exact h
  · have h := Read_of_field packetW1 1 (streamOf (0 :: zeros 256)) (Or.inl rfl) rfl
      (by simp [streamOf])
    rw [h]
    have hv : packetW1.lenValue (List.take 1 (streamOf (0 :: zeros 256)).data) = 0 := by
      simp [streamOf, msgPacket.lenValue, packetW1, beValue, leValue]
    rw [hv]
    simp [streamOf, packetW1]

/-- C1 (amended): round trip. For a length field of `w ∈ {1, 2, 4}` bytes in
either byte order and a body `b` with `minMsgLen ≤ len(b) ≤ maxMsgLen` whose
length fits the field (`len(b) < 2^(8w)`) and whose frame size fits a `uint32`
(`w + len(b) < 2^32`), `Pack b` succeeds and `Read` on a stream holding exactly
the packed bytes returns `b` with no error. -/
theorem C1_roundtrip (p : msgPacket) (w : Nat) (b : Bytes)
    (hw : w = 1 ∨ w = 2 ∨ w = 4) (hp : p.lenMsgLen = (w : Int))
    (hmin : p.minMsgLen ≤ b.length) (hmax : b.length ≤ p.maxMsgLen)
    (hfit : b.length < 256 ^ w) (hsum : w + b.length < 4294967296) :
    ∃ out, p.Pack b = .ok (some out, none) ∧
      p.Read (streamOf out) = .ok (some b, none, streamOf []) := by
  have h := roundtrip_core p w b [] Err.EOF hw hp hmin hmax hfit hsum
  refine ⟨p.lenBytes w b.length ++ b, h.1, ?_⟩
  have h2 := h.2
  rw [List.append_nil] at h2
  exact h2

/-- Witness for `C1_roundtrip`: the default configuration and the body "AB". -/
theorem C1_roundtrip_witness :
    ∃ out, defaultPacket.Pack [65, 66] = .ok (some out, none) ∧
      defaultPacket.Read (streamOf out) = .ok (some [65, 66], none, streamOf []) :=
  C1_roundtrip defaultPacket 4 [65, 66] (by decide) (by decide) (by decide) (by decide)
    (by decide) (by decide)

/-- C2 (evaluation at the failing inputs): with the upper bound `2^32 - 1`, a
body of exactly `maxMsgLen` bytes lies within the bounds, yet `Pack` panics
because the buffer size `4 + (2^32 - 1)` wraps to 3; and with the default
bounds `[1, 4096]` a body of `2^32 + 1` bytes lies outside the bounds, yet
`Pack` returns a buffer and no error because its length wraps to 1. -/
theorem C2_Pack_boundary_violated :
    (packetMaxU32.minMsgLen ≤ (zeros 4294967295).length ∧
      (zeros 4294967295).length ≤ packetMaxU32.maxMsgLen ∧
      packetMaxU32.Pack (zeros 4294967295) = .error .indexRange) ∧
    (defaultPacket.maxMsgLen < (zeros 4294967297).length ∧
      defaultPacket.Pack (zeros 4294967297) = .ok (some [0, 0, 0, 1, 0], none)) := by
  have hl : (zeros 4294967295).length % 4294967296 = 4294967295 := by rw [zeros_length]
  have hl2 : (zeros 4294967297).length % 4294967296 = 1 := by rw [zeros_length]
  refine ⟨⟨?_, ?_, ?_⟩, ?_, ?_⟩
  · rw [zeros_length]; decide
  · rw [zeros_length]; decide
  · exact Pack_wrap_panics packetMaxU32 4 _ (by decide) rfl (by rw [hl]; decide)
      (by rw [hl]; decide) (by rw [hl]; decide)
  · rw [zeros_length]; decide
  · have h := Pack_eq defaultPacket 4 (zeros 4294967297) (by decide) rfl
      (by rw [hl2]; decide) (by rw [hl2]; decide) (by rw [hl2]; decide)
    rw [hl2, take_zeros 1 _ (by decide)] at h
    exact h

/-- C3 (evaluation at the failing input): under the default configuration
(`maxMsgLen = 4096`) a body of `2^32 + 5` bytes is longer than `maxMsgLen`, yet
`Pack` does not fail with "msg too long": `uint32(len(args))` is 5, and a
nine-byte frame is returned with no error. -/
theorem C3_Pack_accepts_too_long :
    defaultPacket.maxMsgLen < (zeros 4294967301).length ∧
      defaultPacket.Pack (zeros 4294967301) =
        .ok (some [0, 0, 0, 5, 0, 0, 0, 0, 0], none) := by
  refine ⟨?_, Pack_default_huge⟩
  rw [zeros_length]; decide

/-- C4 (as stated, refuted): with `minMsgLen = 10` and `maxMsgLen = 2` a body of
five bytes is shorter than `minMsgLen`, but `Pack` fails with "msg too long",
the check made first. -/
theorem C4_too_short_preempted :
    (zeros 5).length < packetInverted.minMsgLen ∧
      packetInverted.Pack (zeros 5) = .ok (none, some (Err.new "msg too long")) := by
  decide

/-- C4 (amended): for every configuration and every body `b` with
`len(b) < minMsgLen` and `len(b) ≤ maxMsgLen`, `Pack b` fails with
"msg too short" and returns no buffer. -/
theorem C4_Pack_too_short (p : msgPacket) (b : Bytes)
    (hshort : b.length < p.minMsgLen) (hmax : b.length ≤ p.maxMsgLen) :
    p.Pack b = .ok (none, some (Err.new "msg too short")) := by
  have hm : b.length % 4294967296 ≤ b.length := Nat.mod_le _ _
  unfold msgPacket.Pack
  simp only [uint32_natCast]
  rw [if_neg (by omega), if_pos (by omega)]

/-- Witness for `C4_Pack_too_short`: the default configuration and the empty
body. -/
theorem C4_Pack_too_short_witness :
    defaultPacket.Pack [] = .ok (none, some (Err.new "msg too short")) :=
  C4_Pack_too_short defaultPacket [] (by decide) (by decide)

/-- C5: bounds validation in `Read`. For a length field of `w ∈ {1, 2, 4}` bytes
and a stream that supplies at least `w` bytes, let `L` be the number the first
`w` bytes denote in the configured byte order. If `L > maxMsgLen`, `Read` fails
with "msg too long"; otherwise, if `L < minMsgLen`, it fails with
"msg too short". The two cases exclude each other, and in both the body is
`nil`, whatever follows the length field. -/
theorem C5_Read_bounds (p : msgPacket) (w : Nat) (r : Reader)
    (hw : w = 1 ∨ w = 2 ∨ w = 4) (hp : p.lenMsgLen = (w : Int)) (hr : w ≤ r.data.length) :
    (p.lenValue (r.data.take w) > p.maxMsgLen →
        p.Read r = .ok (none, some (Err.new "msg too long"),
          { r with data := r.data.drop w })) ∧
      (¬ p.lenValue (r.data.take w) > p.maxMsgLen → p.lenValue (r.data.take w) < p.minMsgLen →
        p.Read r = .ok (none, some (Err.new "msg too short"),
          { r with data := r.data.drop w })) ∧
      ¬ (p.lenValue (r.data.take w) > p.maxMsgLen ∧
        (¬ p.lenValue (r.data.take w) > p.maxMsgLen ∧
          p.lenValue (r.data.take w) < p.minMsgLen)) := by
  refine ⟨?_, ?_, ?_⟩
  · intro h
    rw [Read_of_field p w r hw hp hr, if_pos h]
  · intro h1 h2
    rw [Read_of_field p w r hw hp hr, if_neg h1, if_pos h2]
  · intro h
    exact h.2.1 h.1

/-- Witness for `C5_Read_bounds`: the default configuration on a stream whose
length field is 8192 (too long), and on one whose length field is 0 (too
short). -/
theorem C5_Read_bounds_witness :
    defaultPacket.Read (streamOf [0, 0, 32, 0, 9, 9]) =
        .ok (none, some (Err.new "msg too long"), streamOf [9, 9]) ∧
      defaultPacket.Read (streamOf [0, 0, 0, 0, 9, 9]) =
        .ok (none, some (Err.new "msg too short"), streamOf [9, 9]) :=
  ⟨(C5_Read_bounds defaultPacket 4 (streamOf [0, 0, 32, 0, 9, 9]) (by decide) rfl
      (by decide)).1 (by decide),
   (C5_Read_bounds defaultPacket 4 (streamOf [0, 0, 0, 0, 9, 9]) (by decide) rfl
      (by decide)).2.1 (by decide) (by decide)⟩

/-- C6: no partial results from `Read`. Whenever `Read` returns, either it
returns an error and a `nil` body, or it returns no error and a body whose
length `L` is the decoded value of the length field, with
`minMsgLen ≤ L ≤ maxMsgLen`, and whose bytes are the `L` stream bytes right
after the length field. For a field of 1, 2 or 4 bytes the decoded value is the
number the field denotes in the configured byte order. -/
theorem C6_Read_no_partial (p : msgPacket) (r r1 : Reader) (body : Option Bytes)
    (err : Option Err) (h : p.Read r = .ok (body, err, r1)) :
    (body = none ∧ err ≠ none) ∨
      (err = none ∧ ∃ L : Nat,
        p.decodeLen (r.data.take p.lenMsgLen.toNat) = .ok L ∧
        ((p.lenMsgLen = 1 ∨ p.lenMsgLen = 2 ∨ p.lenMsgLen = 4) →
          L = p.lenValue (r.data.take p.lenMsgLen.toNat)) ∧
        p.minMsgLen ≤ L ∧ L ≤ p.maxMsgLen ∧
        p.lenMsgLen.toNat + L ≤ r.data.length ∧
        body = some ((r.data.drop p.lenMsgLen.toNat).take L) ∧
        ((r.data.drop p.lenMsgLen.toNat).take L).length = L) := by
  unfold msgPacket.Read at h
  by_cases h0 : p.lenMsgLen < 0 ∨ 4 < p.lenMsgLen
  · rw [if_pos h0] at h
    cases h
  rw [if_neg h0] at h
  by_cases hr : p.lenMsgLen.toNat ≤ r.data.length
  · have hrf : ReadFull r p.lenMsgLen.toNat =
        (.ok (r.data.take p.lenMsgLen.toNat),
          { r with data := r.data.drop p.lenMsgLen.toNat }) := by
      simp [ReadFull, hr]
    rw [hrf] at h
    simp only at h
    cases hd : p.decodeLen (r.data.take p.lenMsgLen.toNat) with
    | error e =>
      rw [hd] at h
      cases h
    | ok L =>
      rw [hd] at h
      simp only at h
      by_cases h1 : L > p.maxMsgLen
      · rw [if_pos h1] at h
        simp only [Except.ok.injEq, Prod.mk.injEq] at h
        exact Or.inl ⟨h.1.symm, by rw [← h.2.1]; simp⟩
      rw [if_neg h1] at h
      by_cases h2 : L < p.minMsgLen
      · rw [if_pos h2] at h
        simp only [Except.ok.injEq, Prod.mk.injEq] at h
        exact Or.inl ⟨h.1.symm, by rw [← h.2.1]; simp⟩
      rw [if_neg h2] at h
      by_cases h3 : L ≤ (r.data.drop p.lenMsgLen.toNat).length
      · have hrf2 :
            ReadFull { r with data := r.data.drop p.lenMsgLen.toNat } L =
              (.ok ((r.data.drop p.lenMsgLen.toNat).take L),
                { r with data := (r.data.drop p.lenMsgLen.toNat).drop L }) := by
          simp only [ReadFull, h3, if_true]
        rw [hrf2] at h
        simp only [Except.ok.injEq, Prod.mk.injEq] at h
        refine Or.inr ⟨h.2.1.symm, L, rfl, ?_, by omega, by omega, ?_, h.1.symm, ?_⟩
        · intro hw
          have hlen : (r.data.take p.lenMsgLen.toNat).length = p.lenMsgLen.toNat := by
            rw [List.length_take]
            omega
          have hw2 : p.lenMsgLen.toNat = 1 ∨ p.lenMsgLen.toNat = 2 ∨ p.lenMsgLen.toNat = 4 := by
            omega
          have hp : p.lenMsgLen = ((p.lenMsgLen.toNat : Nat) : Int) := by omega
          have hde := decodeLen_eq p p.lenMsgLen.toNat _ hw2 hp hlen
          rw [hd] at hde
          exact Except.ok.inj hde
        · rw [List.length_drop] at h3
          omega
        · rw [List.length_take]
          omega
      · have hrf2 : ∃ e, ReadFull { r with data := r.data.drop p.lenMsgLen.toNat } L =
              (.error e, { r with data := [] }) := by
          simp only [ReadFull, h3, if_false]
          exact ⟨_, rfl⟩
        obtain ⟨e, he⟩ := hrf2
        rw [he] at h
        simp only [Except.ok.injEq, Prod.mk.injEq] at h
        exact Or.inl ⟨h.1.symm, by rw [← h.2.1]; simp⟩
  · have hrf : ∃ e, ReadFull r p.lenMsgLen.toNat = (.error e, { r with data := [] }) := by
      simp only [ReadFull, hr, if_false]
      exact ⟨_, rfl⟩
    obtain ⟨e, he⟩ := hrf
    rw [he] at h
    simp only [Except.ok.injEq, Prod.mk.injEq] at h
    exact Or.inl ⟨h.1.symm, by rw [← h.2.1]; simp⟩

/-- Witness for `C6_Read_no_partial`: the default configuration on the stream
`00 00 00 02 41 42 07`. -/
theorem C6_Read_no_partial_witness :
    ((some [65, 66] : Option Bytes) = none ∧ (none : Option Err) ≠ none) ∨
      ((none : Option Err) = none ∧ ∃ L : Nat,
        defaultPacket.decodeLen
          ((streamOf [0, 0, 0, 2, 65, 66, 7]).data.take defaultPacket.lenMsgLen.toNat) = .ok L ∧
        ((defaultPacket.lenMsgLen = 1 ∨ defaultPacket.lenMsgLen = 2 ∨
            defaultPacket.lenMsgLen = 4) →
          L = defaultPacket.lenValue
            ((streamOf [0, 0, 0, 2, 65, 66, 7]).data.take defaultPacket.lenMsgLen.toNat)) ∧
        defaultPacket.minMsgLen ≤ L ∧ L ≤ defaultPacket.maxMsgLen ∧
        defaultPacket.lenMsgLen.toNat + L ≤ (streamOf [0, 0, 0, 2, 65, 66, 7]).data.length ∧
        (some [65, 66] : Option Bytes) =
          some (((streamOf [0, 0, 0, 2, 65, 66, 7]).data.drop
            defaultPacket.lenMsgLen.toNat).take L) ∧
        (((streamOf [0, 0, 0, 2, 65, 66, 7]).data.drop
          defaultPacket.lenMsgLen.toNat).take L).length = L) :=
  C6_Read_no_partial defaultPacket (streamOf [0, 0, 0, 2, 65, 66, 7]) (streamOf [7])
    (some [65, 66]) none (by decide)

/-- C7: truncated length field. For a length field of `w ∈ {1, 2, 4}` bytes and
a stream that ends after `N < w` bytes, `Read` returns a `nil` body and the
error of the short read of the length field: `io.EOF` when `N = 0`,
`io.ErrUnexpectedEOF` when `0 < N < w`; no bounds error takes its place. -/
theorem C7_Read_truncated_field (p : msgPacket) (w : Nat) (r : Reader)
    (hw : w = 1 ∨ w = 2 ∨ w = 4) (hp : p.lenMsgLen = (w : Int))
    (hN : r.data.length < w) (hend : r.endErr = Err.EOF) :
    p.Read r = .ok (none,
      some (if r.data.length = 0 then Err.EOF else Err.ErrUnexpectedEOF),
      { r with data := [] }) := by
  have h0 : ¬ (p.lenMsgLen < 0 ∨ 4 < p.lenMsgLen) := by omega
  have hn : ¬ (p.lenMsgLen.toNat ≤ r.data.length) := by omega
  unfold msgPacket.Read
  rw [if_neg h0]
  by_cases hz : r.data.length = 0
  · have hrf : ReadFull r p.lenMsgLen.toNat = (.error Err.EOF, { r with data := [] }) := by
      unfold ReadFull
      rw [if_neg hn]
      simp [hz, hend]
    rw [hrf, if_pos hz]
  · have hrf : ReadFull r p.lenMsgLen.toNat =
        (.error Err.ErrUnexpectedEOF, { r with data := [] }) := by
      have hpos : 0 < r.data.length := Nat.pos_of_ne_zero hz
      unfold ReadFull
      rw [if_neg hn]
      simp [hpos, hend]
    rw [hrf, if_neg hz]

/-- Witness for `C7_Read_truncated_field`: the default configuration on a
stream that ends after two bytes. -/
theorem C7_Read_truncated_field_witness :
    defaultPacket.Read (streamOf [0, 0]) =
      .ok (none, some (if (streamOf [0, 0]).data.length = 0 then Err.EOF
        else Err.ErrUnexpectedEOF), { streamOf [0, 0] with data := [] }) :=
  C7_Read_truncated_field defaultPacket 4 (streamOf [0, 0]) (by decide) rfl (by decide) rfl

/-- C8 (as stated, refuted): under the default configuration the stream
`00 00 20 00` carries the length 8192 and ends with no body byte at all, but
`Read` fails with "msg too long", not with a short-read error: the bounds are
checked before the body is read. -/
theorem C8_truncated_body_bounds_first :
    defaultPacket.lenValue ((streamOf [0, 0, 32, 0]).data.take 4) = 8192 ∧
      ((streamOf [0, 0, 32, 0]).data.drop 4).length < 8192 ∧
      defaultPacket.Read (streamOf [0, 0, 32, 0]) =
        .ok (none, some (Err.new "msg too long"), streamOf []) := by
  decide

/-- C8 (amended): truncated body. For a length field of `w ∈ {1, 2, 4}` bytes
and a stream whose first `w` bytes denote a length `L` with
`minMsgLen ≤ L ≤ maxMsgLen` and which ends after fewer than `L` further bytes,
`Read` returns a `nil` body and the error of the short read of the body:
`io.EOF` when no further byte arrived, `io.ErrUnexpectedEOF` otherwise. -/
theorem C8_Read_truncated_body (p : msgPacket) (w : Nat) (r : Reader)
    (hw : w = 1 ∨ w = 2 ∨ w = 4) (hp : p.lenMsgLen = (w : Int))
    (hr : w ≤ r.data.length) (hend : r.endErr = Err.EOF)
    (hmin : p.minMsgLen ≤ p.lenValue (r.data.take w))
    (hmax : p.lenValue (r.data.take w) ≤ p.maxMsgLen)
    (hshort : (r.data.drop w).length < p.lenValue (r.data.take w)) :
    p.Read r = .ok (none,
      some (if (r.data.drop w).length = 0 then Err.EOF else Err.ErrUnexpectedEOF),
      { r with data := [] }) := by
  rw [Read_of_field p w r hw hp hr, if_neg (by omega), if_neg (by omega)]
  have hn : ¬ (p.lenValue (r.data.take w) ≤ (r.data.drop w).length) := by omega
  by_cases hz : (r.data.drop w).length = 0
  · have hrf : ReadFull { r with data := r.data.drop w } (p.lenValue (r.data.take w)) =
        (.error Err.EOF, { r with data := [] }) := by
      unfold ReadFull
      rw [if_neg hn]
      simp [hz, hend]
    rw [hrf, if_pos hz]
  · have hpos : w < r.data.length := by
      rw [List.length_drop] at hz
      omega
    have hrf : ReadFull { r with data := r.data.drop w } (p.lenValue (r.data.take w)) =
        (.error Err.ErrUnexpectedEOF, { r with data := [] }) := by
      unfold ReadFull
      rw [if_neg hn]
      simp [hpos, hend]
    rw [hrf, if_neg hz]

/-- Witness for `C8_Read_truncated_body`: the default configuration on a stream
that announces five body bytes and delivers two. -/
theorem C8_Read_truncated_body_witness :
    defaultPacket.Read (streamOf [0, 0, 0, 5, 65, 66]) =
      .ok (none,
        some (if ((streamOf [0, 0, 0, 5, 65, 66]).data.drop 4).length = 0 then Err.EOF
          else Err.ErrUnexpectedEOF),
        { streamOf [0, 0, 0, 5, 65, 66] with data := [] }) :=
  C8_Read_truncated_body defaultPacket 4 (streamOf [0, 0, 0, 5, 65, 66]) (by decide) rfl
    (by decide) rfl (by decide) (by decide) (by decide)

/-- C9 (as stated, refuted): with a two-byte big-endian length field and
`maxMsgLen = 65536`, `Pack` accepts a body of 65536 bytes and the frame starts
`00 00`, which denotes 0; no two-byte field denotes 65536, so the first two
bytes are not an encoding of `len(b)`. -/
theorem C9_field_not_encoding_of_len :
    packetW2Wide.Pack (zeros 65536) = .ok (some (0 :: 0 :: zeros 65536), none) ∧
      List.take 2 (0 :: 0 :: zeros 65536) = [0, 0] ∧
      packetW2Wide.lenValue [0, 0] = 0 ∧
      (zeros 65536).length = 65536 ∧
      ∀ f : Bytes, f.length = 2 → packetW2Wide.lenValue f ≠ (zeros 65536).length := by
  have hl : (zeros 65536).length = 65536 := zeros_length 65536
  have hm : (zeros 65536).length % 4294967296 = (zeros 65536).length := by rw [hl]
  refine ⟨?_, rfl, by decide, hl, ?_⟩
  · have h := Pack_eq packetW2Wide 2 (zeros 65536) (by decide) rfl (by rw [hm, hl]; decide)
      (by rw [hm, hl]; decide) (by rw [hm, hl]; decide)
    rw [hm, List.take_length, hl] at h
    exact h
  · intro f hf
    have h := lenValue_two_lt packetW2Wide f hf
    rw [hl]
    omega

/-- C9 (amended): byte-order fidelity of the length field. For a length field
of `w ∈ {2, 4}` bytes and every body `b` shorter than `2^32` bytes for which
`Pack` returns a buffer, the first `w` bytes of the buffer are the `w`-byte
unsigned encoding of `len(b) mod 2^(8w)` in the configured byte order (most
significant byte first for big-endian, least significant first for
little-endian): they denote that number, and the little-endian field is the
byte reversal of the big-endian one. When `len(b) < 2^(8w)` this is the
encoding of `len(b)` itself. -/
theorem C9_Pack_field_byte_order (p : msgPacket) (w : Nat) (b out : Bytes)
    (hw : w = 2 ∨ w = 4) (hp : p.lenMsgLen = (w : Int))
    (h : p.Pack b = .ok (some out, none)) (hlt : b.length < 4294967296) :
    out.take w = (if p.littleEndian then leBytes w (b.length % 256 ^ w)
        else beBytes w (b.length % 256 ^ w)) ∧
      leBytes w (b.length % 256 ^ w) = (beBytes w (b.length % 256 ^ w)).reverse ∧
      p.lenValue (out.take w) = b.length % 256 ^ w ∧
      (b.length < 256 ^ w → out.take w = p.lenBytes w b.length ∧
        p.lenValue (out.take w) = b.length) := by
  have hw3 : w = 1 ∨ w = 2 ∨ w = 4 := Or.inr hw
  have hi := (Pack_body_verbatim p w b out hw3 hp h hlt).1
  have ht : out.take w = p.lenBytes w b.length := by
    rw [hi]
    exact List.take_left' (lenBytes_length p w _)
  have hv : p.lenValue (out.take w) = b.length % 256 ^ w := by
    rw [ht, lenValue_lenBytes]
  refine ⟨?_, ?_, hv, ?_⟩
  · rw [ht, ← lenBytes_mod_pow p w b.length hw3]
    rfl
  · simp [beBytes]
  · intro hfit
    exact ⟨ht, by rw [hv, Nat.mod_eq_of_lt hfit]⟩

/-- Witness for `C9_Pack_field_byte_order`: a 300-byte body with a two-byte
big-endian length field, whose frame starts `01 2C`. -/
theorem C9_Pack_field_byte_order_witness :
    List.take 2 (1 :: 44 :: zeros 300) =
        (if packetW2BE.littleEndian then leBytes 2 ((zeros 300).length % 256 ^ 2)
          else beBytes 2 ((zeros 300).length % 256 ^ 2)) ∧
      leBytes 2 ((zeros 300).length % 256 ^ 2) =
        (beBytes 2 ((zeros 300).length % 256 ^ 2)).reverse ∧
      packetW2BE.lenValue (List.take 2 (1 :: 44 :: zeros 300)) =
        (zeros 300).length % 256 ^ 2 ∧
      ((zeros 300).length < 256 ^ 2 →
        List.take 2 (1 :: 44 :: zeros 300) = packetW2BE.lenBytes 2 (zeros 300).length ∧
        packetW2BE.lenValue (List.take 2 (1 :: 44 :: zeros 300)) = (zeros 300).length) :=
  C9_Pack_field_byte_order packetW2BE 2 (zeros 300) (1 :: 44 :: zeros 300) (Or.inl rfl) rfl
    Pack_300_bigEndian (by rw [zeros_length]; decide)

/-- C10 (evaluation at the failing input): under the default configuration
`Pack` accepts a body of `2^32 + 5` bytes, and the part of the returned buffer
after the four-byte length field is only the first five bytes of the body, not
the body. -/
theorem C10_Pack_truncates_huge_body :
    defaultPacket.Pack (zeros 4294967301) = .ok (some ([0, 0, 0, 5] ++ zeros 5), none) ∧
      List.drop 4 ([0, 0, 0, 5] ++ zeros 5) = (zeros 4294967301).take 5 ∧
      List.drop 4 ([0, 0, 0, 5] ++ zeros 5) ≠ zeros 4294967301 := by
  refine ⟨Pack_default_huge, ?_, ?_⟩
  · rw [take_zeros 5 _ (by decide)]
    rfl
  · intro h
    have hl := congrArg List.length h
    rw [zeros_length] at hl
    revert hl
    decide

/-- Narrowing in `Pack`: when the frame size does not wrap, a body whose length
passes the bounds checks is framed with the length field of
`len(b) mod 2^(8w)`, followed by the whole body. -/
theorem Pack_narrows (p : msgPacket) (w : Nat) (b : Bytes)
    (hw : w = 1 ∨ w = 2 ∨ w = 4) (hp : p.lenMsgLen = (w : Int))
    (hmin : p.minMsgLen ≤ b.length) (hmax : b.length ≤ p.maxMsgLen)
    (hsum : w + b.length < 4294967296) :
    p.Pack b = .ok (some (p.lenBytes w (b.length % 256 ^ w) ++ b), none) := by
  have hm : b.length % 4294967296 = b.length := Nat.mod_eq_of_lt (by omega)
  have h := Pack_eq p w b hw hp (by omega) (by omega) (by omega)
  rw [hm, List.take_length] at h
  rw [lenBytes_mod_pow p w b.length hw]
  exact h

/-- C11 (evaluation at the failing input): with width 4 and bounds
`[1, 2^32 - 1]`, a body of `2^32 - 4` bytes lies within the bounds, but the
`uint32` sum `uint32(lenMsgLen) + msgLen` wraps to 0 instead of
`lenMsgLen + len(b) = 2^32`, the buffer is empty, and `Pack` panics when it
writes the length field: no buffer of `lenMsgLen + len(b)` bytes is returned. -/
theorem C11_Pack_size_wraps :
    packetMaxU32.minMsgLen ≤ (zeros 4294967292).length ∧
      (zeros 4294967292).length ≤ packetMaxU32.maxMsgLen ∧
      (uint32 packetMaxU32.lenMsgLen + uint32 ((zeros 4294967292).length : Int)) %
        4294967296 = 0 ∧
      packetMaxU32.lenMsgLen.toNat + (zeros 4294967292).length = 4294967296 ∧
      packetMaxU32.Pack (zeros 4294967292) = .error .indexRange := by
  have hl : (zeros 4294967292).length = 4294967292 := zeros_length _
  have hm : (zeros 4294967292).length % 4294967296 = 4294967292 := by rw [hl]
  refine ⟨?_, ?_, ?_, ?_, ?_⟩
  · rw [hl]; decide
  · rw [hl]; decide
  · rw [uint32_natCast, hm]; decide
  · rw [hl]; decide
  · exact Pack_wrap_panics packetMaxU32 4 _ (by decide) rfl (by rw [hm]; decide)
      (by rw [hm]; decide) (by rw [hm])

/-- C12 (evaluation at the failing input): with width 1 and bounds
`[1, 2^32 - 1]`, a body of `2^32 - 1` bytes lies within the bounds and is at
least `2^8` bytes long, but `Pack` does not return a narrowed frame: the buffer
size `1 + (2^32 - 1)` wraps to 0 and writing `msg[0]` panics. -/
theorem C12_Pack_narrowing_panics :
    packetW1MaxU32.minMsgLen ≤ (zeros 4294967295).length ∧
      (zeros 4294967295).length ≤ packetW1MaxU32.maxMsgLen ∧
      256 ^ 1 ≤ (zeros 4294967295).length ∧
      packetW1MaxU32.Pack (zeros 4294967295) = .error .indexRange := by
  have hl : (zeros 4294967295).length = 4294967295 := zeros_length _
  have hm : (zeros 4294967295).length % 4294967296 = 4294967295 := by rw [hl]
  refine ⟨?_, ?_, ?_, ?_⟩
  · rw [hl]; decide
  · rw [hl]; decide
  · rw [hl]; decide
  · exact Pack_wrap_panics packetW1MaxU32 1 _ (by decide) rfl (by rw [hm]; decide)
      (by rw [hm]; decide) (by rw [hm])

/-- C13 (as stated, refuted): with a one-byte length field and the default
bounds `[1, 4096]`, `Pack` accepts a body of 300 bytes and the frame starts
with the byte `0x2C = 44`; no byte has the value 300, so the frame is not the
single byte `len(b)` followed by the body. -/
theorem C13_single_byte_not_len :
    packetW1.Pack (zeros 300) = .ok (some (44 :: zeros 300), none) ∧
      (zeros 300).length = 300 ∧
      ∀ x : Byte, x.val ≠ (zeros 300).length := by
  have hl : (zeros 300).length = 300 := zeros_length 300
  have hm : (zeros 300).length % 4294967296 = (zeros 300).length := by rw [hl]
  refine ⟨?_, hl, ?_⟩
  · have h := Pack_eq packetW1 1 (zeros 300) (Or.inl rfl) rfl (by rw [hm, hl]; decide)
      (by rw [hm, hl]; decide) (by rw [hm, hl]; decide)
    rw [hm, List.take_length, hl] at h
    exact h
  · intro x
    have hx := x.isLt
    rw [hl]
    omega

/-- C13 (amended): width 1 ignores the byte order. For every configuration with
`lenMsgLen = 1` and every body `b` shorter than `2^32` bytes for which `Pack`
returns a buffer, the buffer is the single byte `len(b) mod 256` followed by
`b` (the byte `len(b)` itself when `len(b) < 256`); `Pack` and `Read` give the
same results whatever `littleEndian` is set to; and with all other settings
default the body "AB" packs to `02 41 42`, on which `Read` returns "AB". -/
theorem C13_width_one (p : msgPacket) (b out : Bytes) (flag : Bool) (r : Reader)
    (hp : p.lenMsgLen = 1) (h : p.Pack b = .ok (some out, none))
    (hlt : b.length < 4294967296) :
    out = toByte b.length :: b ∧
      (toByte b.length).val = b.length % 256 ∧
      (b.length < 256 → (toByte b.length).val = b.length) ∧
      ({ p with littleEndian := flag } : msgPacket).Pack b = p.Pack b ∧
      ({ p with littleEndian := flag } : msgPacket).Read r = p.Read r ∧
      (NewPacket [WithLenMsgLen 1]).Pack [65, 66] = .ok (some [2, 65, 66], none) ∧
      (NewPacket [WithLenMsgLen 1]).Read (streamOf [2, 65, 66]) =
        .ok (some [65, 66], none, streamOf []) := by
  have hv := (Pack_body_verbatim p 1 b out (Or.inl rfl) hp h hlt).1
  have hb : p.lenBytes 1 b.length = [toByte b.length] := by
    unfold msgPacket.lenBytes beBytes
    split <;> rfl
  refine ⟨?_, rfl, ?_, ?_, ?_, by decide, by decide⟩
  · rw [hv, hb]
    rfl
  · intro hs
    exact Nat.mod_eq_of_lt hs
  · simp [msgPacket.Pack, msgPacket.encodeLen, hp]
  · simp [msgPacket.Read, msgPacket.decodeLen, hp]

/-- Witness for `C13_width_one`: the default configuration with a one-byte
length field and the body "AB". -/
theorem C13_width_one_witness :
    ([2, 65, 66] : Bytes) = toByte ([65, 66] : Bytes).length :: [65, 66] ∧
      (toByte ([65, 66] : Bytes).length).val = ([65, 66] : Bytes).length % 256 ∧
      (([65, 66] : Bytes).length < 256 →
        (toByte ([65, 66] : Bytes).length).val = ([65, 66] : Bytes).length) ∧
      ({ packetW1 with littleEndian := true } : msgPacket).Pack [65, 66] =
        packetW1.Pack [65, 66] ∧
      ({ packetW1 with littleEndian := true } : msgPacket).Read (streamOf [2, 65, 66]) =
        packetW1.Read (streamOf [2, 65, 66]) ∧
      (NewPacket [WithLenMsgLen 1]).Pack [65, 66] = .ok (some [2, 65, 66], none) ∧
      (NewPacket [WithLenMsgLen 1]).Read (streamOf [2, 65, 66]) =
        .ok (some [65, 66], none, streamOf []) :=
  C13_width_one packetW1 [65, 66] [2, 65, 66] true (streamOf [2, 65, 66]) rfl (by decide)
    (by decide)

/-! ## Construction -/

/-- Folding calls over a configuration: each field ends as the value of the
last call that targets it, or stays as it was. -/
theorem foldl_calls (cs : List OptCall) (p : msgPacket) :
    ((cs.map OptCall.toOpt).foldl (fun mp op => op mp) p).littleEndian =
        (lastByteOrder cs).getD p.littleEndian ∧
      ((cs.map OptCall.toOpt).foldl (fun mp op => op mp) p).lenMsgLen =
        (lastLenMsgLen cs).getD p.lenMsgLen ∧
      ((cs.map OptCall.toOpt).foldl (fun mp op => op mp) p).minMsgLen =
        (lastMinMsgLen cs).getD p.minMsgLen ∧
      ((cs.map OptCall.toOpt).foldl (fun mp op => op mp) p).maxMsgLen =
        (lastMaxMsgLen cs).getD p.maxMsgLen := by
  induction cs generalizing p with
  | nil => exact ⟨rfl, rfl, rfl, rfl⟩
  | cons c cs ih =>
    have h := ih (c.toOpt p)
    simp only [List.map_cons, List.foldl_cons]
    refine ⟨?_, ?_, ?_, ?_⟩
    · rw [h.1]
      simp only [lastByteOrder]
      cases lastByteOrder cs with
      | some b => rfl
      | none => cases c <;> rfl
    · rw [h.2.1]
      simp only [lastLenMsgLen]
      cases lastLenMsgLen cs with
      | some b => rfl
      | none => cases c <;> rfl
    · rw [h.2.2.1]
      simp only [lastMinMsgLen]
      cases lastMinMsgLen cs with
      | some b => rfl
      | none => cases c <;> rfl
    · rw [h.2.2.2]
      simp only [lastMaxMsgLen]
      cases lastMaxMsgLen cs with
      | some b => rfl
      | none => cases c <;> rfl

/-- C14: defaults. `NewPacket` called with no options returns the configuration
with `lenMsgLen = 4`, `minMsgLen = 1`, `maxMsgLen = 4096` and big-endian byte
order (`littleEndian = false`). -/
theorem C14_NewPacket_defaults :
    NewPacket [] =
      { lenMsgLen := 4, minMsgLen := 1, maxMsgLen := 4096, littleEndian := false } ∧
    (NewPacket []).lenMsgLen = 4 ∧ (NewPacket []).minMsgLen = 1 ∧
    (NewPacket []).maxMsgLen = 4096 ∧ (NewPacket []).littleEndian = false :=
  ⟨rfl, rfl, rfl, rfl, rfl⟩

/-- C15: option semantics. For every list of calls of `WithByteOrder`,
`WithLenMsgLen`, `WithMinMsgLen` and `WithMaxMsgLen`, each field of
`NewPacket(options...)` is the value given by the last call in the list that
targets that field, or the default if no call targets it; each option changes
exactly one field and leaves the other three as they were; and no value is
validated or rejected: the argument is stored as given (`WithLenMsgLen(3)` is
stored as 3). -/
theorem C15_NewPacket_options (cs : List OptCall) (p : msgPacket) (b : Bool) (n : Int)
    (lo hi : Nat) :
    ((NewPacket (cs.map OptCall.toOpt)).littleEndian = (lastByteOrder cs).getD false ∧
      (NewPacket (cs.map OptCall.toOpt)).lenMsgLen = (lastLenMsgLen cs).getD 4 ∧
      (NewPacket (cs.map OptCall.toOpt)).minMsgLen = (lastMinMsgLen cs).getD 1 ∧
      (NewPacket (cs.map OptCall.toOpt)).maxMsgLen = (lastMaxMsgLen cs).getD 4096) ∧
    (WithByteOrder b p =
        { lenMsgLen := p.lenMsgLen, minMsgLen := p.minMsgLen, maxMsgLen := p.maxMsgLen,
          littleEndian := b } ∧
      WithLenMsgLen n p =
        { lenMsgLen := n, minMsgLen := p.minMsgLen, maxMsgLen := p.maxMsgLen,
          littleEndian := p.littleEndian } ∧
      WithMinMsgLen lo p =
        { lenMsgLen := p.lenMsgLen, minMsgLen := lo, maxMsgLen := p.maxMsgLen,
          littleEndian := p.littleEndian } ∧
      WithMaxMsgLen hi p =
        { lenMsgLen := p.lenMsgLen, minMsgLen := p.minMsgLen, maxMsgLen := hi,
          littleEndian := p.littleEndian }) ∧
    (NewPacket [WithLenMsgLen 3]).lenMsgLen = 3 := by
  refine ⟨?_, ⟨rfl, rfl, rfl, rfl⟩, rfl⟩
  exact foldl_calls cs _

/-! ## Inversion of `Read` -/

/-- Inversion of `Read`: whenever it returns a body, the width lies in `0..4`,
no error is returned, the decoded length `L` passed both bounds checks, the
body is the `L` bytes after the length field, and the reader is left right
after them. -/
theorem Read_inv (p : msgPacket) (r r1 : Reader) (body : Bytes) (err : Option Err)
    (h : p.Read r = .ok (some body, err, r1)) :
    0 ≤ p.lenMsgLen ∧ p.lenMsgLen ≤ 4 ∧ err = none ∧ ∃ L : Nat,
      p.decodeLen (r.data.take p.lenMsgLen.toNat) = .ok L ∧
      p.minMsgLen ≤ L ∧ L ≤ p.maxMsgLen ∧
      p.lenMsgLen.toNat + L ≤ r.data.length ∧
      body = (r.data.drop p.lenMsgLen.toNat).take L ∧
      r1 = { r with data := (r.data.drop p.lenMsgLen.toNat).drop L } := by
  unfold msgPacket.Read at h
  by_cases h0 : p.lenMsgLen < 0 ∨ 4 < p.lenMsgLen
  · rw [if_pos h0] at h
    cases h
  rw [if_neg h0] at h
  by_cases hr : p.lenMsgLen.toNat ≤ r.data.length
  · have hrf : ReadFull r p.lenMsgLen.toNat =
        (.ok (r.data.take p.lenMsgLen.toNat),
          { r with data := r.data.drop p.lenMsgLen.toNat }) := by
      simp [ReadFull, hr]
    rw [hrf] at h
    simp only at h
    cases hd : p.decodeLen (r.data.take p.lenMsgLen.toNat) with
    | error e =>
      rw [hd] at h
      cases h
    | ok L =>
      rw [hd] at h
      simp only at h
      by_cases h1 : L > p.maxMsgLen
      · rw [if_pos h1] at h
        simp only [Except.ok.injEq, Prod.mk.injEq] at h
        obtain ⟨hb, _⟩ := h
        cases hb
      rw [if_neg h1] at h
      by_cases h2 : L < p.minMsgLen
      · rw [if_pos h2] at h
        simp only [Except.ok.injEq, Prod.mk.injEq] at h
        obtain ⟨hb, _⟩ := h
        cases hb
      rw [if_neg h2] at h
      by_cases h3 : L ≤ (r.data.drop p.lenMsgLen.toNat).length
      · have hrf2 :
            ReadFull { r with data := r.data.drop p.lenMsgLen.toNat } L =
              (.ok ((r.data.drop p.lenMsgLen.toNat).take L),
                { r with data := (r.data.drop p.lenMsgLen.toNat).drop L }) := by
          simp only [ReadFull, h3, if_true]
        rw [hrf2] at h
        simp only [Except.ok.injEq, Prod.mk.injEq, Option.some.injEq] at h
        refine ⟨by omega, by omega, h.2.1.symm, L, rfl, by omega, by omega, ?_, h.1.symm,
          h.2.2.symm⟩
        rw [List.length_drop] at h3
        omega
      · have hrf2 : ∃ e, ReadFull { r with data := r.data.drop p.lenMsgLen.toNat } L =
              (.error e, { r with data := [] }) := by
          simp only [ReadFull, h3, if_false]
          exact ⟨_, rfl⟩
        obtain ⟨e, he⟩ := hrf2
        rw [he] at h
        simp only [Except.ok.injEq, Prod.mk.injEq] at h
        obtain ⟨hb, _⟩ := h
        cases hb
  · have hrf : ∃ e, ReadFull r p.lenMsgLen.toNat = (.error e, { r with data := [] }) := by
      simp only [ReadFull, hr, if_false]
      exact ⟨_, rfl⟩
    obtain ⟨e, he⟩ := hrf
    rw [he] at h
    simp only [Except.ok.injEq, Prod.mk.injEq] at h
    obtain ⟨hb, _⟩ := h
    cases hb

/-- Encoding the number a length field denotes gives the field back. -/
theorem lenBytes_lenValue (p : msgPacket) (w : Nat) (f : Bytes)
    (hw : w = 1 ∨ w = 2 ∨ w = 4) (hf : f.length = w) :
    p.lenBytes w (p.lenValue f) = f := by
  rcases hw with h | h | h <;> subst h
  · obtain ⟨a, rfl⟩ := length_eq_one f hf
    have ha := a.isLt
    have e0 : toByte (p.lenValue [a]) = a := by
      apply Fin.ext
      unfold msgPacket.lenValue beValue
      split <;> simp [leValue, toByte_val]
    unfold msgPacket.lenBytes beBytes
    split <;> simp [leBytes, e0]
  · obtain ⟨a, b, rfl⟩ := length_eq_two f hf
    have ha := a.isLt
    have hb := b.isLt
    cases hle : p.littleEndian
    · have e0 : toByte (a.val * 256 + b.val) = b := by
        apply Fin.ext
        simp only [toByte_val]
        omega
      have e1 : toByte ((a.val * 256 + b.val) / 256) = a := by
        apply Fin.ext
        simp only [toByte_val]
        omega
      have hv : p.lenValue [a, b] = a.val * 256 + b.val := by
        simp [msgPacket.lenValue, hle, beValue, leValue]
        omega
      rw [hv]
      simp [msgPacket.lenBytes, hle, beBytes, leBytes, e0, e1]
    · have e0 : toByte (a.val + 256 * b.val) = a := by
        apply Fin.ext
        simp only [toByte_val]
        omega
      have e1 : toByte ((a.val + 256 * b.val) / 256) = b := by
        apply Fin.ext
        simp only [toByte_val]
        omega
      have hv : p.lenValue [a, b] = a.val + 256 * b.val := by
        simp [msgPacket.lenValue, hle, leValue]
      rw [hv]
      simp [msgPacket.lenBytes, hle, leBytes, e0, e1]
  · obtain ⟨a, b, c, d, rfl⟩ := length_eq_four f hf
    have ha := a.isLt
    have hb := b.isLt
    have hc := c.isLt
    have hd := d.isLt
    cases hle : p.littleEndian
    · have hv : p.lenValue [a, b, c, d] =
          d.val + 256 * (c.val + 256 * (b.val + 256 * a.val)) := by
        simp [msgPacket.lenValue, hle, beValue, leValue]
      have e0 : toByte (d.val + 256 * (c.val + 256 * (b.val + 256 * a.val))) = d := by
        apply Fin.ext
        simp only [toByte_val]
        omega
      have e1 : toByte ((d.val + 256 * (c.val + 256 * (b.val + 256 * a.val))) / 256) = c := by
        apply Fin.ext
        simp only [toByte_val]
        omega
      have e2 : toByte ((d.val + 256 * (c.val + 256 * (b.val + 256 * a.val))) / 256 / 256)
          = b := by
        apply Fin.ext
        simp only [toByte_val]
        omega
      have e3 : toByte ((d.val + 256 * (c.val + 256 * (b.val + 256 * a.val))) / 256 / 256
          / 256) = a := by
        apply Fin.ext
        simp only [toByte_val]
        omega
      rw [hv]
      simp [msgPacket.lenBytes, hle, beBytes, leBytes, e0, e1, e2, e3]
    · have hv : p.lenValue [a, b, c, d] =
          a.val + 256 * (b.val + 256 * (c.val + 256 * d.val)) := by
        simp [msgPacket.lenValue, hle, leValue]
      have e0 : toByte (a.val + 256 * (b.val + 256 * (c.val + 256 * d.val))) = a := by
        apply Fin.ext
        simp only [toByte_val]
        omega
      have e1 : toByte ((a.val + 256 * (b.val + 256 * (c.val + 256 * d.val))) / 256) = b := by
        apply Fin.ext
        simp only [toByte_val]
        omega
      have e2 : toByte ((a.val + 256 * (b.val + 256 * (c.val + 256 * d.val))) / 256 / 256)
          = c := by
        apply Fin.ext
        simp only [toByte_val]
        omega
      have e3 : toByte ((a.val + 256 * (b.val + 256 * (c.val + 256 * d.val))) / 256 / 256
          / 256) = d := by
        apply Fin.ext
        simp only [toByte_val]
        omega
      rw [hv]
      simp [msgPacket.lenBytes, hle, leBytes, e0, e1, e2, e3]

/-- Encode undoes decode when the frame size fits a `uint32`: if `Read`
returns the body `b` and `w + len(b) < 2^32`, `Pack b` returns the first
`w + len(b)` bytes of the stream. -/
theorem Pack_of_Read (p : msgPacket) (w : Nat) (r r1 : Reader) (b : Bytes)
    (err : Option Err) (hw : w = 1 ∨ w = 2 ∨ w = 4) (hp : p.lenMsgLen = (w : Int))
    (h : p.Read r = .ok (some b, err, r1)) (hsum : w + b.length < 4294967296) :
    p.Pack b = .ok (some (r.data.take (w + b.length)), none) := by
  obtain ⟨_, _, _, L, hd, hmin, hmax, hlen, hb, _⟩ := Read_inv p r r1 b err h
  have hwn : p.lenMsgLen.toNat = w := by omega
  rw [hwn] at hd hlen hb
  have hfl : (r.data.take w).length = w := by
    rw [List.length_take]
    omega
  rw [decodeLen_eq p w _ hw hp hfl] at hd
  have hL : p.lenValue (r.data.take w) = L := Except.ok.inj hd
  have hbl : b.length = L := by
    rw [hb, List.length_take, List.length_drop]
    omega
  have hm : b.length % 4294967296 = b.length := Nat.mod_eq_of_lt (by omega)
  have hpk := Pack_eq p w b hw hp (by omega) (by omega) (by omega)
  rw [hm, List.take_length] at hpk
  rw [hpk, List.take_add, hbl, ← hL, lenBytes_lenValue p w _ hw hfl, hL, ← hb]

/-- C16: inverted bounds reject everything. For every configuration with
`minMsgLen > maxMsgLen`, `Pack` fails with "msg too long" or "msg too short"
for every body, `Read` returns a body for no stream, and for a length field of
`w ∈ {1, 2, 4}` bytes every stream that supplies the whole field makes `Read`
fail with one of the two bounds errors. -/
theorem C16_inverted_bounds (p : msgPacket) (b : Bytes) (r : Reader)
    (hinv : p.maxMsgLen < p.minMsgLen) :
    (p.Pack b = .ok (none, some (Err.new "msg too long")) ∨
        p.Pack b = .ok (none, some (Err.new "msg too short"))) ∧
      (∀ (body : Bytes) (err : Option Err) (r1 : Reader),
        p.Read r ≠ .ok (some body, err, r1)) ∧
      (∀ w : Nat, (w = 1 ∨ w = 2 ∨ w = 4) → p.lenMsgLen = (w : Int) → w ≤ r.data.length →
        (p.Read r = .ok (none, some (Err.new "msg too long"),
            { r with data := r.data.drop w }) ∨
          p.Read r = .ok (none, some (Err.new "msg too short"),
            { r with data := r.data.drop w }))) := by
  refine ⟨?_, ?_, ?_⟩
  · unfold msgPacket.Pack
    simp only [uint32_natCast]
    by_cases h1 : b.length % 4294967296 > p.maxMsgLen
    · left
      rw [if_pos h1]
    · right
      rw [if_neg h1, if_pos (by omega)]
  · intro body err r1 h
    obtain ⟨_, _, _, L, _, hmin, hmax, _⟩ := Read_inv p r r1 body err h
    omega
  · intro w hw hp hr
    rw [Read_of_field p w r hw hp hr]
    by_cases h1 : p.lenValue (r.data.take w) > p.maxMsgLen
    · left
      rw [if_pos h1]
    · right
      rw [if_neg h1, if_pos (by omega)]

/-- Witness for `C16_inverted_bounds`: the configuration with `minMsgLen = 10`
and `maxMsgLen = 2`, a five-byte body and the stream `00 00 00 05 41`. -/
theorem C16_inverted_bounds_witness :
    (packetInverted.Pack (zeros 5) = .ok (none, some (Err.new "msg too long")) ∨
        packetInverted.Pack (zeros 5) = .ok (none, some (Err.new "msg too short"))) ∧
      (∀ (body : Bytes) (err : Option Err) (r1 : Reader),
        packetInverted.Read (streamOf [0, 0, 0, 5, 65]) ≠ .ok (some body, err, r1)) ∧
      (∀ w : Nat, (w = 1 ∨ w = 2 ∨ w = 4) → packetInverted.lenMsgLen = (w : Int) →
        w ≤ (streamOf [0, 0, 0, 5, 65]).data.length →
        (packetInverted.Read (streamOf [0, 0, 0, 5, 65]) =
            .ok (none, some (Err.new "msg too long"),
              { streamOf [0, 0, 0, 5, 65] with
                data := (streamOf [0, 0, 0, 5, 65]).data.drop w }) ∨
          packetInverted.Read (streamOf [0, 0, 0, 5, 65]) =
            .ok (none, some (Err.new "msg too short"),
              { streamOf [0, 0, 0, 5, 65] with
                data := (streamOf [0, 0, 0, 5, 65]).data.drop w }))) :=
  C16_inverted_bounds packetInverted (zeros 5) (streamOf [0, 0, 0, 5, 65]) (by decide)

/-- C17: no panic on malformed data. For a length field of `w ∈ {1, 2, 4}`
bytes and every finite input stream (empty, truncated, or carrying any length
value), `Read` returns: its result is never a panic, so no slice or index
operation in it is out of range, and what it returns is either a body with no
error or an error with no body. -/
theorem C17_Read_no_panic (p : msgPacket) (w : Nat) (r : Reader)
    (hw : w = 1 ∨ w = 2 ∨ w = 4) (hp : p.lenMsgLen = (w : Int)) :
    ∃ (body : Option Bytes) (err : Option Err) (r1 : Reader),
      p.Read r = .ok (body, err, r1) ∧
      ((body ≠ none ∧ err = none) ∨ (body = none ∧ err ≠ none)) := by
  by_cases hr : w ≤ r.data.length
  · rw [Read_of_field p w r hw hp hr]
    by_cases h1 : p.lenValue (r.data.take w) > p.maxMsgLen
    · rw [if_pos h1]
      exact ⟨_, _, _, rfl, Or.inr ⟨rfl, by simp⟩⟩
    rw [if_neg h1]
    by_cases h2 : p.lenValue (r.data.take w) < p.minMsgLen
    · rw [if_pos h2]
      exact ⟨_, _, _, rfl, Or.inr ⟨rfl, by simp⟩⟩
    rw [if_neg h2]
    by_cases h3 : p.lenValue (r.data.take w) ≤ (r.data.drop w).length
    · have hrf : ReadFull { r with data := r.data.drop w } (p.lenValue (r.data.take w)) =
          (.ok ((r.data.drop w).take (p.lenValue (r.data.take w))),
            { r with data := (r.data.drop w).drop (p.lenValue (r.data.take w)) }) := by
        simp only [ReadFull, h3, if_true]
      rw [hrf]
      exact ⟨_, _, _, rfl, Or.inl ⟨by simp, rfl⟩⟩
    · have hrf : ∃ e, ReadFull { r with data := r.data.drop w }
          (p.lenValue (r.data.take w)) = (.error e, { r with data := [] }) := by
        simp only [ReadFull, h3, if_false]
        exact ⟨_, rfl⟩
      obtain ⟨e, he⟩ := hrf
      rw [he]
      exact ⟨_, _, _, rfl, Or.inr ⟨rfl, by simp⟩⟩
  · have h0 : ¬ (p.lenMsgLen < 0 ∨ 4 < p.lenMsgLen) := by omega
    have hn : ¬ (p.lenMsgLen.toNat ≤ r.data.length) := by omega
    have hrf : ∃ e, ReadFull r p.lenMsgLen.toNat = (.error e, { r with data := [] }) := by
      simp only [ReadFull, hn, if_false]
      exact ⟨_, rfl⟩
    obtain ⟨e, he⟩ := hrf
    unfold msgPacket.Read
    rw [if_neg h0, he]
    exact ⟨_, _, _, rfl, Or.inr ⟨rfl, by simp⟩⟩

/-- Witness for `C17_Read_no_panic`: the default configuration on the empty
stream. -/
theorem C17_Read_no_panic_witness :
    ∃ (body : Option Bytes) (err : Option Err) (r1 : Reader),
      defaultPacket.Read (streamOf []) = .ok (body, err, r1) ∧
      ((body ≠ none ∧ err = none) ∨ (body = none ∧ err ≠ none)) :=
  C17_Read_no_panic defaultPacket 4 (streamOf []) (by decide) rfl

theorem two_pow_eight_mul (w : Nat) : 2 ^ (8 * w) = 256 ^ w := by
  rw [Nat.pow_mul]

/-- C18: round trip under representability. For a length field of
`w ∈ {1, 2, 4}` bytes in either byte order and every body `b` with
`minMsgLen ≤ len(b) ≤ maxMsgLen`, `len(b) < 2^(8w)` and `w + len(b) < 2^32`,
`Pack b` succeeds, and `Read` on a stream that starts with the packed bytes
(whatever follows them, whatever the reader reports at its end) returns exactly
`b` with no error. -/
theorem C18_roundtrip_representable (p : msgPacket) (w : Nat) (b : Bytes)
    (hw : w = 1 ∨ w = 2 ∨ w = 4) (hp : p.lenMsgLen = (w : Int))
    (hmin : p.minMsgLen ≤ b.length) (hmax : b.length ≤ p.maxMsgLen)
    (hfit : b.length < 2 ^ (8 * w)) (hsum : w + b.length < 2 ^ 32) :
    ∃ out, p.Pack b = .ok (some out, none) ∧
      p.Read (streamOf out) = .ok (some b, none, streamOf []) ∧
      ∀ (tail : Bytes) (e : Err),
        p.Read { data := out ++ tail, endErr := e } =
          .ok (some b, none, { data := tail, endErr := e }) := by
  rw [two_pow_eight_mul] at hfit
  have hsum2 : w + b.length < 4294967296 := by
    have h32 : (2 : Nat) ^ 32 = 4294967296 := by decide
    omega
  refine ⟨p.lenBytes w b.length ++ b,
    (roundtrip_core p w b [] Err.EOF hw hp hmin hmax hfit hsum2).1, ?_, ?_⟩
  · have h := (roundtrip_core p w b [] Err.EOF hw hp hmin hmax hfit hsum2).2
    rw [List.append_nil] at h
    exact h
  · intro tail e
    exact (roundtrip_core p w b tail e hw hp hmin hmax hfit hsum2).2

/-- Witness for `C18_roundtrip_representable`: a two-byte little-endian length
field and the body "AB". -/
theorem C18_roundtrip_representable_witness :
    ∃ out, packetW2LE.Pack [65, 66] = .ok (some out, none) ∧
      packetW2LE.Read (streamOf out) = .ok (some [65, 66], none, streamOf []) ∧
      ∀ (tail : Bytes) (e : Err),
        packetW2LE.Read { data := out ++ tail, endErr := e } =
          .ok (some [65, 66], none, { data := tail, endErr := e }) :=
  C18_roundtrip_representable packetW2LE 2 [65, 66] (by decide) rfl (by decide) (by decide)
    (by decide) (by decide)

/-- C19: `Read` consumes exactly one frame. For a length field of
`w ∈ {1, 2, 4}` bytes, whenever `Read` returns a body `b` on a stream, it has
consumed exactly the first `w + len(b)` bytes and leaves the rest of the stream
unread; hence for bodies `b1`, `b2` that `Pack` accepts and whose lengths are
below `2^(8w)`, `Read` on the stream `Pack(b1) ++ Pack(b2)` returns `b1` and
leaves `Pack(b2)`, on which a second `Read` returns `b2`. -/
theorem C19_Read_one_frame (p : msgPacket) (w : Nat) (r r1 : Reader) (b : Bytes)
    (err : Option Err) (b1 b2 out1 out2 : Bytes) (e : Err)
    (hw : w = 1 ∨ w = 2 ∨ w = 4) (hp : p.lenMsgLen = (w : Int))
    (h : p.Read r = .ok (some b, err, r1))
    (h1 : p.Pack b1 = .ok (some out1, none)) (h2 : p.Pack b2 = .ok (some out2, none))
    (hf1 : b1.length < 2 ^ (8 * w)) (hf2 : b2.length < 2 ^ (8 * w)) :
    (w + b.length ≤ r.data.length ∧
        r1 = { data := r.data.drop (w + b.length), endErr := r.endErr } ∧
        r.data = r.data.take (w + b.length) ++ r1.data) ∧
      (p.Read { data := out1 ++ out2, endErr := e } =
          .ok (some b1, none, { data := out2, endErr := e }) ∧
        p.Read { data := out2, endErr := e } =
          .ok (some b2, none, { data := [], endErr := e })) := by
  constructor
  · obtain ⟨_, _, _, L, _, _, _, hlen, hb, hr1⟩ := Read_inv p r r1 b err h
    have hwn : p.lenMsgLen.toNat = w := by omega
    rw [hwn] at hlen hb hr1
    have hbl : b.length = L := by
      rw [hb, List.length_take, List.length_drop]
      omega
    have hr1d : r1 = { data := r.data.drop (w + b.length), endErr := r.endErr } := by
      rw [hr1, hbl, List.drop_drop]
    refine ⟨by omega, hr1d, ?_⟩
    rw [hr1d]
    exact (List.take_append_drop _ _).symm
  · rw [two_pow_eight_mul] at hf1 hf2
    have hpw : 256 ^ w ≤ 4294967296 := by
      rcases hw with hh | hh | hh <;> subst hh <;> decide
    have hm1 : b1.length % 4294967296 = b1.length := Nat.mod_eq_of_lt (by omega)
    have hm2 : b2.length % 4294967296 = b2.length := Nat.mod_eq_of_lt (by omega)
    obtain ⟨hmax1, hmin1, hsum1, ho1⟩ := Pack_inv p w b1 out1 hw hp h1
    obtain ⟨hmax2, hmin2, hsum2, ho2⟩ := Pack_inv p w b2 out2 hw hp h2
    rw [hm1] at hmax1 hmin1 hsum1 ho1
    rw [hm2] at hmax2 hmin2 hsum2 ho2
    rw [List.take_length] at ho1 ho2
    subst ho1
    subst ho2
    have hA := (roundtrip_core p w b1 (p.lenBytes w b2.length ++ b2) e hw hp hmin1 hmax1 hf1
      hsum1).2
    have hB := (roundtrip_core p w b2 [] e hw hp hmin2 hmax2 hf2 hsum2).2
    rw [List.append_nil] at hB
    exact ⟨hA, hB⟩

/-- Witness for `C19_Read_one_frame`: the default configuration, the bodies "A"
and "BC", and the stream made of their two frames. -/
theorem C19_Read_one_frame_witness :
    (4 + ([65] : Bytes).length ≤ (streamOf [0, 0, 0, 1, 65, 0, 0, 0, 2, 66, 67]).data.length ∧
        streamOf [0, 0, 0, 2, 66, 67] =
          { data := (streamOf [0, 0, 0, 1, 65, 0, 0, 0, 2, 66, 67]).data.drop
              (4 + ([65] : Bytes).length),
            endErr := (streamOf [0, 0, 0, 1, 65, 0, 0, 0, 2, 66, 67]).endErr } ∧
        (streamOf [0, 0, 0, 1, 65, 0, 0, 0, 2, 66, 67]).data =
          (streamOf [0, 0, 0, 1, 65, 0, 0, 0, 2, 66, 67]).data.take
              (4 + ([65] : Bytes).length) ++
            (streamOf [0, 0, 0, 2, 66, 67]).data) ∧
      (defaultPacket.Read { data := [0, 0, 0, 1, 65] ++ [0, 0, 0, 2, 66, 67], endErr := Err.EOF } =
          .ok (some [65], none, { data := [0, 0, 0, 2, 66, 67], endErr := Err.EOF }) ∧
        defaultPacket.Read { data := [0, 0, 0, 2, 66, 67], endErr := Err.EOF } =
          .ok (some [66, 67], none, { data := [], endErr := Err.EOF })) :=
  C19_Read_one_frame defaultPacket 4 (streamOf [0, 0, 0, 1, 65, 0, 0, 0, 2, 66, 67])
    (streamOf [0, 0, 0, 2, 66, 67]) [65] none [65] [66, 67] [0, 0, 0, 1, 65]
    [0, 0, 0, 2, 66, 67] Err.EOF (by decide) rfl (by decide) (by decide) (by decide)
    (by decide) (by decide)

/-- Reading a well-formed frame: a length field `f` of `w` bytes that denotes a
length within the bounds, followed by that many body bytes, then anything. -/
theorem Read_frame (p : msgPacket) (w : Nat) (f body tail : Bytes) (e : Err)
    (hw : w = 1 ∨ w = 2 ∨ w = 4) (hp : p.lenMsgLen = (w : Int)) (hf : f.length = w)
    (hmin : p.minMsgLen ≤ p.lenValue f) (hmax : p.lenValue f ≤ p.maxMsgLen)
    (hb : body.length = p.lenValue f) :
    p.Read { data := (f ++ body) ++ tail, endErr := e } =
      .ok (some body, none, { data := tail, endErr := e }) := by
  have hr : w ≤ (({ data := (f ++ body) ++ tail, endErr := e } : Reader).data).length := by
    simp [hf]
  rw [Read_of_field p w _ hw hp hr]
  have ht : List.take w ((f ++ body) ++ tail) = f := by
    rw [List.append_assoc]
    exact List.take_left' hf
  have hd : List.drop w ((f ++ body) ++ tail) = body ++ tail := by
    rw [List.append_assoc]
    exact List.drop_left' hf
  simp only [ht, hd]
  rw [if_neg (by omega), if_neg (by omega), ← hb, ReadFull_append]

/-- C20 (evaluation at the failing input): with width 4 and bounds
`[1, 2^32 - 1]`, `Read` succeeds on the stream `FF FF FF FC` followed by
`2^32 - 4` zero bytes and returns those bytes as the body, but `Pack` of that
body does not return the bytes `Read` consumed: the buffer size `4 + (2^32 - 4)`
wraps to 0 and `Pack` panics. -/
theorem C20_Pack_after_Read_panics :
    packetMaxU32.Read (streamOf ([255, 255, 255, 252] ++ zeros 4294967292)) =
        .ok (some (zeros 4294967292), none, streamOf []) ∧
      packetMaxU32.Pack (zeros 4294967292) = .error .indexRange := by
  have hl : (zeros 4294967292).length = 4294967292 := zeros_length _
  have hm : (zeros 4294967292).length % 4294967296 = 4294967292 := by rw [hl]
  have hv : packetMaxU32.lenValue [255, 255, 255, 252] = 4294967292 := by decide
  constructor
  · have h := Read_frame packetMaxU32 4 [255, 255, 255, 252] (zeros 4294967292) [] Err.EOF
      (by decide) rfl rfl (by rw [hv]; decide) (by rw [hv]; decide) (by rw [hv, hl])
    rw [List.append_nil] at h
    exact h
  · exact Pack_wrap_panics packetMaxU32 4 _ (by decide) rfl (by rw [hm]; decide)
      (by rw [hm]; decide) (by rw [hm])

end Packet
